import Mathlib

/-!
Shallow embedding of `src/orderbook.rs` (barter-data-rs): an L3 order book
driven by sequenced events, with a price-sorted vector of FIFO deques per
side, an order-id directory, and an optional outlier filter.

Modelling conventions:
* `f64` is modelled by `F64`: an exact rational (`Frac`, an integer
  numerator over a positive denominator, compared by value exactly as
  distinct finite floats compare) together with an explicit `nan` value.
  Arithmetic propagates `nan`; `partial_cmp` is `F64.pcmp` returning
  `Option Ordering` (`none` iff a `nan` is involved); `==` on floats is
  `F64.beq` (false on `nan`, as in IEEE semantics).
* `NonNan` (a non-NaN float by construction) is modelled by `Frac`;
  `NonNan::build` is `NonNan.build : F64 → Option Frac`.
* `HashMap<String, (Side, NonNan)>` is an association list with
  overwrite-on-insert; `HashSet<String>` is a duplicate-free list.
* Panics are explicit: any operation that can panic in Rust returns
  `Option _`, with `none` meaning a panic (`unwrap` of a NaN price in
  `OrderDeque::build`, out-of-range vector indexing in
  `delete_deque_if_empty`, and the opt-in `panic_button`).
* Wall-clock time (`Utc::now`) is external: `start_time` is an opaque `Nat`
  untouched by `process`, and the timestamp prefixed to stats error
  messages is omitted (messages are stored as `(last_sequence, error)`).
-/

deriving instance DecidableEq for Except

namespace BarterData

/-- An exact rational: integer numerator over the positive denominator
`den1 + 1`.  Finite `f64` values are a subset of these; comparisons are by
value (cross multiplication), as `f64` comparisons are. -/
structure Frac where
  num : Int
  den1 : Nat
deriving DecidableEq, Repr

namespace Frac

/-- The (positive) denominator. -/
def den (a : Frac) : Int := Int.ofNat (a.den1 + 1)

/-- Value equality (`==` on finite floats). -/
def qeq (a b : Frac) : Bool := a.num * b.den == b.num * a.den

/-- Value strict order (`<` on finite floats). -/
def qlt (a b : Frac) : Bool := a.num * b.den < b.num * a.den

/-- Exact addition. -/
def add (a b : Frac) : Frac :=
  ⟨a.num * b.den + b.num * a.den, a.den1 * b.den1 + a.den1 + b.den1⟩

/-- Exact subtraction. -/
def sub (a b : Frac) : Frac :=
  ⟨a.num * b.den - b.num * a.den, a.den1 * b.den1 + a.den1 + b.den1⟩

/-- Exact multiplication. -/
def mul (a b : Frac) : Frac :=
  ⟨a.num * b.num, a.den1 * b.den1 + a.den1 + b.den1⟩

/-- Embed an integer. -/
def ofInt (n : Int) : Frac := ⟨n, 0⟩

end Frac

/-- Model of `f64`: an exact rational or NaN. -/
inductive F64 where
  | nan : F64
  | fin : Frac → F64
deriving DecidableEq, Repr

namespace F64

/-- `f64` addition (NaN-propagating). -/
def add : F64 → F64 → F64
  | fin a, fin b => fin (a.add b)
  | _, _ => nan

/-- `f64` subtraction (NaN-propagating). -/
def sub : F64 → F64 → F64
  | fin a, fin b => fin (a.sub b)
  | _, _ => nan

/-- `f64` multiplication (NaN-propagating). -/
def mul : F64 → F64 → F64
  | fin a, fin b => fin (a.mul b)
  | _, _ => nan

instance : Add F64 := ⟨add⟩
instance : Sub F64 := ⟨sub⟩
instance : Mul F64 := ⟨mul⟩

/-- `f64::partial_cmp`: `none` iff either operand is NaN. -/
def pcmp : F64 → F64 → Option Ordering
  | fin a, fin b =>
      if a.qlt b then some .lt else if b.qlt a then some .gt else some .eq
  | _, _ => none

/-- `f64` `==` (IEEE: NaN compares unequal to everything). -/
def beq : F64 → F64 → Bool
  | fin a, fin b => a.qeq b
  | _, _ => false

/-- `f64` `<` via `partial_cmp` (false when NaN is involved). -/
def flt (a b : F64) : Bool := a.pcmp b == some .lt

/-- `f64` `>` via `partial_cmp` (false when NaN is involved). -/
def fgt (a b : F64) : Bool := a.pcmp b == some .gt

/-- `num_traits::Zero::is_zero` for `f64` (`self == 0.0`; false on NaN). -/
def isZero : F64 → Bool
  | fin a => a.num == 0
  | nan => false

/-- `f64::is_nan`. -/
def isNaN : F64 → Bool
  | nan => true
  | fin _ => false

end F64

/-- `barter_integration::model::Side`. -/
inductive Side where
  | Buy : Side
  | Sell : Side
deriving DecidableEq, Repr

/-- `OrderType`. -/
inductive OrderType where
  | Limit : OrderType
  | Market : OrderType
deriving DecidableEq, Repr

/-- `AtomicOrder`: most basic order struct. -/
structure AtomicOrder where
  id : String
  price : F64
  size : F64
deriving DecidableEq, Repr

/-- `Order`: side-tagged atomic order. -/
inductive Order where
  | Bid : AtomicOrder → OrderType → Order
  | Ask : AtomicOrder → OrderType → Order
deriving DecidableEq, Repr

namespace Order

/-- `Order::id`. -/
def id : Order → String
  | Bid o _ => o.id
  | Ask o _ => o.id

/-- `Order::price`. -/
def price : Order → F64
  | Bid o _ => o.price
  | Ask o _ => o.price

/-- `Order::side`. -/
def side : Order → Side
  | Bid _ _ => .Buy
  | Ask _ _ => .Sell

/-- `Order::unwrap` (projects the inner `AtomicOrder`). -/
def inner : Order → AtomicOrder
  | Bid o _ => o
  | Ask o _ => o

end Order

/-- `Sequence = u64` (only compared, never overflowed, so `Nat` is exact). -/
abbrev Sequence := Nat

/-- `OrderbookEvent`. -/
inductive OrderbookEvent where
  | Received : Order → Sequence → OrderbookEvent
  | Open : Order → Sequence → OrderbookEvent
  | Done : String → Sequence → OrderbookEvent
  | Change : String → F64 → Sequence → OrderbookEvent
deriving DecidableEq, Repr

/-- `OrderbookEvent::sequence`. -/
def OrderbookEvent.sequence : OrderbookEvent → Sequence
  | .Received _ s => s
  | .Open _ s => s
  | .Done _ s => s
  | .Change _ _ s => s

/-- `NonNan::build` (refuses NaN; a built `NonNan` is just its rational). -/
def NonNan.build : F64 → Option Frac
  | .nan => none
  | .fin q => some q

/-- `OrderbookError`.  `OrderNotFoundInDeque` carries the formatted
`order_id_map.get_key_value` entry; we carry that entry directly instead of
its `format!` rendering. -/
inductive OrderbookError where
  | OutOfSequence : OrderbookEvent → OrderbookError
  | OrderNotFoundInMap : String → OrderbookError
  | OrderNotFoundInDeque : Option (String × Side × Frac) → OrderbookError
  | MissingOrderDeque : Frac → OrderbookError
  | NanFloat : F64 → OrderbookError
  | Outlier : OrderbookError
  | BuilderIncomplete : String → OrderbookError
deriving DecidableEq, Repr

/-- `OrderDeque`: one price level (FIFO queue of orders plus its price). -/
structure OrderDeque where
  deque : List AtomicOrder
  price : Frac
deriving DecidableEq, Repr

namespace OrderDeque

/-- `OrderDeque::build`: new single-order level.  The Rust code calls
`NonNan::build(order.price).unwrap()`: `none` models that panic on a NaN
price. -/
def build (order : AtomicOrder) : Option OrderDeque :=
  (NonNan.build order.price).map (fun p => { deque := [order], price := p })

/-- `OrderDeque::push_back`. -/
def push_back (d : OrderDeque) (order : AtomicOrder) : OrderDeque :=
  { d with deque := d.deque ++ [order] }

/-- `VecDeque::remove(idx)`: returns the removed element (None if out of
range) together with the remaining queue. -/
def removeAt (d : OrderDeque) (order_idx : Nat) : Option (AtomicOrder × OrderDeque) :=
  match d.deque.get? order_idx with
  | some a => some (a, { d with deque := d.deque.eraseIdx order_idx })
  | none => none

/-- `OrderDeque::get_ref`: linear scan by order id. -/
def get_ref (d : OrderDeque) (order_id : String) : Option AtomicOrder :=
  (d.deque.findIdx? (fun o => o.id == order_id)).bind (fun idx => d.deque.get? idx)

/-- `OrderDeque::get_mut` followed by a write: apply `f` to the order found
by linear scan (the index from `iter().position` is always in range). -/
def modifyOrder (d : OrderDeque) (order_id : String) (f : AtomicOrder → AtomicOrder) :
    Option OrderDeque :=
  (d.deque.findIdx? (fun o => o.id == order_id)).map (fun idx =>
    match d.deque.get? idx with
    | some o => { d with deque := d.deque.set idx (f o) }
    | none => d)

/-- `OrderDeque::size`: aggregate of order sizes (an `f64` left fold from
`0.0`). -/
def size (d : OrderDeque) : F64 :=
  d.deque.foldl (fun a b => a + b.size) (F64.fin (Frac.ofInt 0))

/-- `OrderDeque::len`. -/
def len (d : OrderDeque) : Nat := d.deque.length

end OrderDeque

/-- `DEFAULT_OUTLIER_FACTOR`. -/
def DEFAULT_OUTLIER_FACTOR : F64 := F64.fin ⟨1, 1⟩

/-- `DEFAULT_BEST_BID` (0.0 sentinel). -/
def DEFAULT_BEST_BID : F64 := F64.fin (Frac.ofInt 0)

/-- `DEFAULT_BEST_ASK` (0.0 sentinel). -/
def DEFAULT_BEST_ASK : F64 := F64.fin (Frac.ofInt 0)

/-- `TopLevel = (f64, f64)`. -/
abbrev TopLevel := F64 × F64

/-- `HashSet<String>::insert` on the duplicate-free list model. -/
def setInsert (s : List String) (id : String) : List String :=
  if s.contains id then s else id :: s

/-- `HashSet<String>::remove` on the duplicate-free list model. -/
def setRemove (s : List String) (id : String) : List String :=
  s.filter (fun x => x ≠ id)

/-- `SimpleOutlierFilter`. -/
structure SimpleOutlierFilter where
  outlier_factor : F64
  outlier_ids : List String
  outliers_encountered : Nat
deriving DecidableEq, Repr

namespace SimpleOutlierFilter

/-- `SimpleOutlierFilter::new`. -/
def new (outlier_factor : Option F64) : SimpleOutlierFilter :=
  { outlier_factor :=
      match outlier_factor with
      | some factor => factor
      | none => DEFAULT_OUTLIER_FACTOR,
    outlier_ids := [],
    outliers_encountered := 0 }

/-- `SimpleOutlierFilter::check`: returns the result together with the
(possibly) updated filter (`&mut self` in Rust). -/
def check (f : SimpleOutlierFilter) (order : Order) (top_level : TopLevel) :
    Except OrderbookError Unit × SimpleOutlierFilter :=
  match order.side with
  | .Buy =>
      if F64.beq top_level.1 DEFAULT_BEST_BID then
        (.ok (), f)
      else
        match order.price.pcmp (top_level.1 * (F64.fin (Frac.ofInt 1) - f.outlier_factor)) with
        | some .lt =>
            (.error .Outlier, { f with outlier_ids := setInsert f.outlier_ids order.id })
        | _ => (.ok (), f)
  | .Sell =>
      if F64.beq top_level.2 DEFAULT_BEST_ASK then
        (.ok (), f)
      else
        match order.price.pcmp (top_level.2 * (F64.fin (Frac.ofInt 1) + f.outlier_factor)) with
        | some .gt =>
            (.error .Outlier, { f with outlier_ids := setInsert f.outlier_ids order.id })
        | _ => (.ok (), f)

end SimpleOutlierFilter

/-- `OrderbookStats`.  Error messages are stored as
`(last_sequence, error)`; the `Utc::now()` timestamp prefix is wall-clock
time, external to the embedding. -/
structure OrderbookStats where
  events_processed : Nat
  events_not_processed : Nat
  error_msgs : Option (List (Sequence × OrderbookError))
deriving DecidableEq, Repr

/-- `OrderbookStats::new`. -/
def OrderbookStats.new (track_errors : Bool) : OrderbookStats :=
  { events_processed := 0,
    events_not_processed := 0,
    error_msgs := match track_errors with
      | true => some []
      | false => none }

/-- `HashMap::get` on the association-list model. -/
def mapGet (m : List (String × Side × Frac)) (id : String) : Option (Side × Frac) :=
  (m.find? (fun kv => kv.1 == id)).map (fun kv => kv.2)

/-- `HashMap::get_key_value` on the association-list model. -/
def mapGetKV (m : List (String × Side × Frac)) (id : String) : Option (String × Side × Frac) :=
  m.find? (fun kv => kv.1 == id)

/-- `HashMap::insert` (overwrites any binding for the key). -/
def mapInsert (m : List (String × Side × Frac)) (id : String) (v : Side × Frac) :
    List (String × Side × Frac) :=
  (id, v) :: m.filter (fun kv => kv.1 ≠ id)

/-- `HashMap::remove`. -/
def mapRemove (m : List (String × Side × Frac)) (id : String) :
    List (String × Side × Frac) :=
  m.filter (fun kv => kv.1 ≠ id)

/-- `OrderbookL3`.  `market` is an opaque identifier; `last_n_events` is the
bounded ring buffer as `(bound, contents)`. -/
structure OrderbookL3 where
  market : String
  last_sequence : Sequence
  start_time : Nat
  bids : List OrderDeque
  asks : List OrderDeque
  order_id_map : List (String × Side × Frac)
  outlier_filter : Option SimpleOutlierFilter
  stats : Option OrderbookStats
  panic_button : Bool
  last_n_events : Option (Nat × List OrderbookEvent)
deriving DecidableEq, Repr

/-- `slice::binary_search_by_key` on the ascending asks vector (sorted-list
semantics: `ok (i, d)` when the deque `d` at index `i` has the price,
`error i` with the insertion point otherwise).  On a sorted vector this
agrees with Rust's binary search; an `ok` result always designates a real
element whose key compared equal, as Rust guarantees. -/
def searchAsc : List OrderDeque → Frac → Except Nat (Nat × OrderDeque)
  | [], _ => .error 0
  | d :: ds, p =>
      if d.price.qeq p then .ok (0, d)
      else if p.qlt d.price then .error 0
      else
        match searchAsc ds p with
        | .ok (i, e) => .ok (i + 1, e)
        | .error i => .error (i + 1)

/-- `slice::binary_search_by_key` with `Reverse` keys on the descending bids
vector (same conventions as `searchAsc`). -/
def searchDesc : List OrderDeque → Frac → Except Nat (Nat × OrderDeque)
  | [], _ => .error 0
  | d :: ds, p =>
      if d.price.qeq p then .ok (0, d)
      else if d.price.qlt p then .error 0
      else
        match searchDesc ds p with
        | .ok (i, e) => .ok (i + 1, e)
        | .error i => .error (i + 1)

/-- `Vec::insert(pos, a)` (callers only pass `pos ≤ len`). -/
def vecInsert : List OrderDeque → Nat → OrderDeque → List OrderDeque
  | l, 0, a => a :: l
  | [], _ + 1, a => [a]
  | x :: xs, n + 1, a => x :: vecInsert xs n a

namespace OrderbookL3

/-- `best_bid`: price of the first bid deque, `DEFAULT_BEST_BID` if empty. -/
def best_bid (b : OrderbookL3) : F64 :=
  match b.bids.head? with
  | some d => F64.fin d.price
  | none => DEFAULT_BEST_BID

/-- `best_ask`: price of the first ask deque, `DEFAULT_BEST_ASK` if empty. -/
def best_ask (b : OrderbookL3) : F64 :=
  match b.asks.head? with
  | some d => F64.fin d.price
  | none => DEFAULT_BEST_ASK

/-- `top_level`. -/
def top_level (b : OrderbookL3) : TopLevel := (b.best_bid, b.best_ask)

/-- `num_bid_levels`. -/
def num_bid_levels (b : OrderbookL3) : Nat := b.bids.length

/-- `num_ask_levels`. -/
def num_ask_levels (b : OrderbookL3) : Nat := b.asks.length

/-- The side's deque vector (`self.bids` / `self.asks`). -/
def sideDeques (b : OrderbookL3) : Side → List OrderDeque
  | .Buy => b.bids
  | .Sell => b.asks

/-- Replace the side's deque vector. -/
def setSideDeques (b : OrderbookL3) (side : Side) (l : List OrderDeque) : OrderbookL3 :=
  match side with
  | .Buy => { b with bids := l }
  | .Sell => { b with asks := l }

/-- `panic_button` (the debug assertion): `none` models the `panic!`. -/
def panicButtonCheck (b : OrderbookL3) : Option Unit :=
  if b.panic_button
      && !(b.best_bid.isZero)
      && !(b.best_ask.isZero)
      && b.best_bid.fgt b.best_ask then
    none
  else
    some ()

/-- `store_event`: push into the bounded `last_n_events` ring
(`BoundedVecDeque::push_back` drops from the front at capacity). -/
def store_event (b : OrderbookL3) (event : OrderbookEvent) : OrderbookL3 :=
  { b with last_n_events :=
      b.last_n_events.map (fun (n, evs) =>
        let evs2 := evs ++ [event]
        (n, evs2.drop (evs2.length - n))) }

/-- `nan_check`: make a `NonNan` out of an order's price. -/
def nan_check (order : Order) : Except OrderbookError Frac :=
  match NonNan.build order.price with
  | some p => .ok p
  | none => .error (.NanFloat order.price)

/-- `check_new_outlier` (threads the mutated filter). -/
def check_new_outlier (b : OrderbookL3) (order : Order) :
    Except OrderbookError Unit × OrderbookL3 :=
  match b.outlier_filter with
  | some f =>
      let (r, f2) := f.check order b.top_level
      (r, { b with outlier_filter := some f2 })
  | none => (.ok (), b)

/-- `check_old_outlier`. -/
def check_old_outlier (b : OrderbookL3) (order_id : String) : Bool :=
  match b.outlier_filter with
  | some f => f.outlier_ids.contains order_id
  | none => false

/-- `remove_old_outlier` (the returned `bool` is discarded by the caller). -/
def remove_old_outlier (b : OrderbookL3) (order_id : String) : OrderbookL3 :=
  match b.outlier_filter with
  | some f => { b with outlier_filter := some { f with outlier_ids := setRemove f.outlier_ids order_id } }
  | none => b

/-- `get_deque_pos` / `get_deque_pos_mut`: `(side, position, deque or
`MissingOrderDeque`)`. -/
def get_deque_pos (b : OrderbookL3) (side : Side) (price : Frac) :
    Side × Nat × Except OrderbookError OrderDeque :=
  match side with
  | .Buy =>
      match searchDesc b.bids price with
      | .ok (pos, d) => (.Buy, pos, .ok d)
      | .error pos => (.Buy, pos, .error (.MissingOrderDeque price))
  | .Sell =>
      match searchAsc b.asks price with
      | .ok (pos, d) => (.Sell, pos, .ok d)
      | .error pos => (.Sell, pos, .error (.MissingOrderDeque price))

/-- `get_deque_pos_by_id` / `get_deque_pos_mut_by_id`. -/
def get_deque_pos_by_id (b : OrderbookL3) (order_id : String) :
    Except OrderbookError (Side × Nat × Except OrderbookError OrderDeque) :=
  match mapGet b.order_id_map order_id with
  | some (side, price) => .ok (b.get_deque_pos side price)
  | none =>
      if b.check_old_outlier order_id then
        .error .Outlier
      else
        .error (.OrderNotFoundInMap order_id)

/-- `insert`: find the order's deque and push to the back, or create a new
deque at the binary search gap.  The id is recorded in `order_id_map`
before the deque search, as in the source.  `none` models the panic of the
`unwrap` inside `OrderDeque::build` (unreachable: guarded by
`nan_check`). -/
def insert (b : OrderbookL3) (order : Order) :
    Option (Except OrderbookError Unit × OrderbookL3) :=
  match nan_check order with
  | .error e => some (.error e, b)
  | .ok price =>
    match b.check_new_outlier order with
    | (.error e, b1) => some (.error e, b1)
    | (.ok (), b1) =>
      match order with
      | .Bid o _ =>
          let b2 := { b1 with order_id_map := mapInsert b1.order_id_map o.id (.Buy, price) }
          match searchDesc b2.bids price with
          | .ok (pos, d) =>
              some (.ok (), { b2 with bids := b2.bids.set pos (d.push_back o) })
          | .error pos =>
              match OrderDeque.build o with
              | some d => some (.ok (), { b2 with bids := vecInsert b2.bids pos d })
              | none => none
      | .Ask o _ =>
          let b2 := { b1 with order_id_map := mapInsert b1.order_id_map o.id (.Sell, price) }
          match searchAsc b2.asks price with
          | .ok (pos, d) =>
              some (.ok (), { b2 with asks := b2.asks.set pos (d.push_back o) })
          | .error pos =>
              match OrderDeque.build o with
              | some d => some (.ok (), { b2 with asks := vecInsert b2.asks pos d })
              | none => none

/-- `delete_deque_if_empty`: drops the deque at `idx` if it is empty.
`none` models the panic of the `self.bids[idx]` / `self.asks[idx]`
indexing when `idx` is out of range (unreachable from `remove`). -/
def delete_deque_if_empty (b : OrderbookL3) (side : Side) (idx : Nat) :
    Option OrderbookL3 :=
  match (b.sideDeques side).get? idx with
  | some d =>
      some (if d.deque.isEmpty then b.setSideDeques side ((b.sideDeques side).eraseIdx idx) else b)
  | none => none

/-- `remove`: resolves the id through `get_deque_pos_mut_by_id` and calls
`deque.remove(idx)` — `idx` being the deque's position in the side vector,
exactly as in the source (which never computes the order's index inside
the deque). -/
def remove (b : OrderbookL3) (order_id : String) :
    Option (Except OrderbookError Unit × OrderbookL3) :=
  let not_found_in_deque_msg := mapGetKV b.order_id_map order_id
  match b.get_deque_pos_by_id order_id with
  | .ok (side, idx, maybe_deque) =>
      match maybe_deque with
      | .error e => some (.error e, b)
      | .ok deque =>
          match deque.removeAt idx with
          | some (_order, deque2) =>
              let b1 := b.setSideDeques side ((b.sideDeques side).set idx deque2)
              let b2 := { b1 with order_id_map := mapRemove b1.order_id_map order_id }
              (b2.delete_deque_if_empty side idx).map (fun b3 => (.ok (), b3))
          | none => some (.error (.OrderNotFoundInDeque not_found_in_deque_msg), b)
  | .error .Outlier =>
      some (.error .Outlier, b.remove_old_outlier order_id)
  | .error e => some (.error e, b)

/-- `update` (= `get_order_mut` + size write-back): resolves the id the
same way as `remove`, then linear-scans the deque for the order and
overwrites its `size`. -/
def update (b : OrderbookL3) (order_id : String) (new_size : F64) :
    Except OrderbookError Unit × OrderbookL3 :=
  let not_found_in_deque_msg := mapGetKV b.order_id_map order_id
  match b.get_deque_pos_by_id order_id with
  | .ok (side, idx, maybe_deque) =>
      match maybe_deque with
      | .error e => (.error e, b)
      | .ok deque =>
          match deque.modifyOrder order_id (fun o => { o with size := new_size }) with
          | some deque2 =>
              (.ok (), b.setSideDeques side ((b.sideDeques side).set idx deque2))
          | none => (.error (.OrderNotFoundInDeque not_found_in_deque_msg), b)
  | .error e => (.error e, b)

/-- `update_sequence_and_stats`. -/
def update_sequence_and_stats (b : OrderbookL3)
    (result : Except OrderbookError Unit) (sequence : Sequence) : OrderbookL3 :=
  match result with
  | .ok () =>
      { b with last_sequence := sequence,
               stats := b.stats.map (fun s => { s with events_processed := s.events_processed + 1 }) }
  | .error .Outlier =>
      { b with last_sequence := sequence,
               stats := b.stats.map (fun s => { s with events_not_processed := s.events_not_processed + 1 }) }
  | .error e =>
      { b with stats := b.stats.map (fun s =>
          { s with events_not_processed := s.events_not_processed + 1,
                   error_msgs := s.error_msgs.map (fun msgs => msgs ++ [(b.last_sequence, e)]) }) }

/-- `process`: the only public mutator.  Rust returns `()`; the embedding
also surfaces the internal dispatch result for observation.  `none` models
a panic (from `insert`, `remove`, or the panic button). -/
def process (b : OrderbookL3) (event : OrderbookEvent) :
    Option (Except OrderbookError Unit × OrderbookL3) :=
  let b0 := b.store_event event
  let sequence := event.sequence
  let step : Option (Except OrderbookError Unit × OrderbookL3) :=
    if b0.last_sequence < sequence then
      match event with
      | .Received _ _ => some (.ok (), b0)
      | .Open order _ => b0.insert order
      | .Done order_id _ => b0.remove order_id
      | .Change order_id new_size _ => some (b0.update order_id new_size)
    else
      some (.error (.OutOfSequence event), b0)
  match step with
  | none => none
  | some (result, b1) =>
      let b2 := b1.update_sequence_and_stats result sequence
      match b2.panicButtonCheck with
      | none => none
      | some () => some (result, b2)

/-- Iterated `process`, keeping only the final state (`none` if any call
panicked). -/
def processMany (b : OrderbookL3) : List OrderbookEvent → Option OrderbookL3
  | [] => some b
  | e :: es =>
      match b.process e with
      | some (_, b1) => b1.processMany es
      | none => none

/-- The `scan` closure inside `levels`: running liquidity accumulator. -/
def levelsScan : List OrderDeque → F64 → List (F64 × F64 × F64)
  | [], _ => []
  | d :: ds, liquidity =>
      let liquidity2 := liquidity + F64.fin d.price * d.size
      (F64.fin d.price, d.size, liquidity2) :: levelsScan ds liquidity2

/-- `levels`: snapshot of `(price, level size, running liquidity)` per
deque, best outward, optionally truncated to `depth`. -/
def levels (b : OrderbookL3) (side : Side) (depth : Option Nat) :
    List (F64 × F64 × F64) :=
  match side with
  | .Buy =>
      match depth with
      | some n => (levelsScan b.bids (F64.fin (Frac.ofInt 0))).take n
      | none => levelsScan b.bids (F64.fin (Frac.ofInt 0))
  | .Sell =>
      match depth with
      | some n => (levelsScan b.asks (F64.fin (Frac.ofInt 0))).take n
      | none => levelsScan b.asks (F64.fin (Frac.ofInt 0))

end OrderbookL3

/-- `OrderbookBuilder`. -/
structure OrderbookBuilder where
  market : Option String
  outlier_filter : Option SimpleOutlierFilter
  stats : Option OrderbookStats
  panic_button : Bool
  last_n_events : Option (Nat × List OrderbookEvent)
deriving DecidableEq, Repr

namespace OrderbookBuilder

/-- `OrderbookBuilder::new`. -/
def new : OrderbookBuilder :=
  { market := none, outlier_filter := none, stats := none,
    panic_button := false, last_n_events := none }

/-- `OrderbookBuilder::build`.  `start_time` (`Utc::now()`) is wall-clock
time, external to the embedding; it is modelled as `0`. -/
def build (s : OrderbookBuilder) : Except OrderbookError OrderbookL3 :=
  match s.market with
  | none => .error (.BuilderIncomplete "missing Market")
  | some m =>
      .ok { market := m, last_sequence := 0, start_time := 0,
            bids := [], asks := [], order_id_map := [],
            outlier_filter := s.outlier_filter, stats := s.stats,
            panic_button := s.panic_button, last_n_events := s.last_n_events }

end OrderbookBuilder

/-! ### Definitions supporting the claims -/

/-- The outlier filter's `outliers_encountered` counter, if the filter is
enabled. -/
def OrderbookL3.filterCounter (b : OrderbookL3) : Option Nat :=
  b.outlier_filter.map (fun f => f.outliers_encountered)

/-- The outlier filter's recorded id set, if the filter is enabled. -/
def OrderbookL3.filterIds (b : OrderbookL3) : Option (List String) :=
  b.outlier_filter.map (fun f => f.outlier_ids)

/-- Sum over the first `n` deques of `price_i × level_size_i` in `f64`
arithmetic, accumulated from `0.0` walking from best outward. -/
def liqPrefix (ds : List OrderDeque) (n : Nat) : F64 :=
  (ds.take n).foldl (fun a d => a + F64.fin d.price * d.size) (F64.fin (Frac.ofInt 0))

/-- The book-shape invariant of the claims: bids strictly descending in
price, asks strictly ascending (hence no duplicated price per side), and
no empty deque on either side. -/
def OrderbookL3.wellFormedLevels (b : OrderbookL3) : Prop :=
  b.bids.Pairwise (fun x y => y.price.qlt x.price = true)
  ∧ b.asks.Pairwise (fun x y => x.price.qlt y.price = true)
  ∧ (∀ d ∈ b.bids, d.deque ≠ [])
  ∧ (∀ d ∈ b.asks, d.deque ≠ [])

instance (b : OrderbookL3) : Decidable b.wellFormedLevels := by
  unfold OrderbookL3.wellFormedLevels; infer_instance

/-- A freshly built book (the output of `OrderbookBuilder::build` with only
the required `market` set). -/
def plainBook : OrderbookL3 :=
  { market := "market", last_sequence := 0, start_time := 0,
    bids := [], asks := [], order_id_map := [],
    outlier_filter := none, stats := none,
    panic_button := false, last_n_events := none }

/-- A freshly built book with the default outlier filter enabled. -/
def filterBook : OrderbookL3 :=
  { plainBook with outlier_filter := some (SimpleOutlierFilter.new none) }

/-- Two asks sharing one price level: the state after
`Open(Ask "A"@1005, 1)` and `Open(Ask "B"@1005, 2)` on a fresh book. -/
def twoAsksBook : OrderbookL3 :=
  (plainBook.processMany
    [.Open (.Ask ⟨"A", .fin (Frac.ofInt 1005), .fin (Frac.ofInt 1)⟩ .Limit) 1,
     .Open (.Ask ⟨"B", .fin (Frac.ofInt 1005), .fin (Frac.ofInt 2)⟩ .Limit) 2]).getD plainBook

/-- One resting bid at 997: the state after `Open(Bid "A"@997, 1)` on a
fresh book (base state for the Open-then-Done round trip). -/
def oneBidBook : OrderbookL3 :=
  (plainBook.processMany [.Open (.Bid ⟨"A", .fin (Frac.ofInt 997), .fin (Frac.ofInt 1)⟩ .Limit) 1]).getD plainBook

/-- The events `Open(Ask "A"@1005, 1)`, `Open(Ask "B"@1005, 2)`,
`Done("B", 3)` exercising removal from a shared price level. -/
def c2Events : List OrderbookEvent :=
  [.Open (.Ask ⟨"A", .fin (Frac.ofInt 1005), .fin (Frac.ofInt 1)⟩ .Limit) 1,
   .Open (.Ask ⟨"B", .fin (Frac.ofInt 1005), .fin (Frac.ofInt 2)⟩ .Limit) 2,
   .Done "B" 3]

/-- The state reached from a fresh book by `c2Events`. -/
def c2Book : OrderbookL3 := (plainBook.processMany c2Events).getD plainBook

/-- `Open(Bid "B"@996, 2)` then `Done("B", 3)`: the Open-then-Done pair of
the round-trip claim, applied on top of `oneBidBook`. -/
def c3Events : List OrderbookEvent :=
  [.Open (.Bid ⟨"B", .fin (Frac.ofInt 996), .fin (Frac.ofInt 1)⟩ .Limit) 2,
   .Done "B" 3]

/-- The state reached from `oneBidBook` by `c3Events`. -/
def c3Book : OrderbookL3 := (oneBidBook.processMany c3Events).getD oneBidBook


/-- The filter-enabled book holding one recorded outlier id "X" and one
resting bid at 100 (obtained by opening the bid, then opening a far bid at
1 that the filter rejects: 1 < 100 × (1 − 0.5)). -/
def ghostBook : OrderbookL3 :=
  (filterBook.processMany
    [.Open (.Bid ⟨"A", .fin (Frac.ofInt 100), .fin (Frac.ofInt 1)⟩ .Limit) 1,
     .Open (.Bid ⟨"X", .fin (Frac.ofInt 1), .fin (Frac.ofInt 1)⟩ .Limit) 2]).getD filterBook

/-- Concrete book with three ask levels, for the `levels` witness. -/
def threeAsksBook : OrderbookL3 :=
  (plainBook.processMany
    [.Open (.Ask ⟨"A", .fin (Frac.ofInt 10), .fin (Frac.ofInt 2)⟩ .Limit) 1,
     .Open (.Ask ⟨"B", .fin (Frac.ofInt 11), .fin (Frac.ofInt 3)⟩ .Limit) 2,
     .Open (.Ask ⟨"C", .fin (Frac.ofInt 10), .fin (Frac.ofInt 4)⟩ .Limit) 3]).getD plainBook

/-- The second entry of `threeAsksBook.levels Sell None` (with a NaN
default), named for the `levels` witness. -/
def c8t : F64 × F64 × F64 :=
  ((threeAsksBook.levels Side.Sell none).get? 1).getD (F64.nan, F64.nan, F64.nan)

/-- The result of one `process` step, with a default for the (never
reached) panic case: used to name concrete post-states in witnesses. -/
def processD (b : OrderbookL3) (e : OrderbookEvent) :
    Except OrderbookError Unit × OrderbookL3 :=
  (b.process e).getD (.ok (), b)

/-! ### Frame lemmas: which fields each primitive can touch -/

namespace OrderbookL3

@[simp] theorem store_event_last_sequence (b : OrderbookL3) (e : OrderbookEvent) :
    (b.store_event e).last_sequence = b.last_sequence := rfl

@[simp] theorem store_event_bids (b : OrderbookL3) (e : OrderbookEvent) :
    (b.store_event e).bids = b.bids := rfl

@[simp] theorem store_event_asks (b : OrderbookL3) (e : OrderbookEvent) :
    (b.store_event e).asks = b.asks := rfl

@[simp] theorem store_event_order_id_map (b : OrderbookL3) (e : OrderbookEvent) :
    (b.store_event e).order_id_map = b.order_id_map := rfl

@[simp] theorem store_event_outlier_filter (b : OrderbookL3) (e : OrderbookEvent) :
    (b.store_event e).outlier_filter = b.outlier_filter := rfl

@[simp] theorem store_event_panic_button (b : OrderbookL3) (e : OrderbookEvent) :
    (b.store_event e).panic_button = b.panic_button := rfl

@[simp] theorem uss_bids (b : OrderbookL3) (r : Except OrderbookError Unit) (s : Sequence) :
    (b.update_sequence_and_stats r s).bids = b.bids := by
  cases r with
  | ok u => cases u; rfl
  | error e => cases e <;> rfl

@[simp] theorem uss_asks (b : OrderbookL3) (r : Except OrderbookError Unit) (s : Sequence) :
    (b.update_sequence_and_stats r s).asks = b.asks := by
  cases r with
  | ok u => cases u; rfl
  | error e => cases e <;> rfl

@[simp] theorem uss_order_id_map (b : OrderbookL3) (r : Except OrderbookError Unit) (s : Sequence) :
    (b.update_sequence_and_stats r s).order_id_map = b.order_id_map := by
  cases r with
  | ok u => cases u; rfl
  | error e => cases e <;> rfl

@[simp] theorem uss_outlier_filter (b : OrderbookL3) (r : Except OrderbookError Unit) (s : Sequence) :
    (b.update_sequence_and_stats r s).outlier_filter = b.outlier_filter := by
  cases r with
  | ok u => cases u; rfl
  | error e => cases e <;> rfl

@[simp] theorem uss_panic_button (b : OrderbookL3) (r : Except OrderbookError Unit) (s : Sequence) :
    (b.update_sequence_and_stats r s).panic_button = b.panic_button := by
  cases r with
  | ok u => cases u; rfl
  | error e => cases e <;> rfl

theorem uss_last_accepted (b : OrderbookL3) (r : Except OrderbookError Unit) (s : Sequence)
    (h : r = .ok () ∨ r = .error .Outlier) :
    (b.update_sequence_and_stats r s).last_sequence = s := by
  rcases h with h | h <;> subst h <;> rfl

theorem uss_last_rejected (b : OrderbookL3) (err : OrderbookError) (s : Sequence)
    (h : err ≠ .Outlier) :
    (b.update_sequence_and_stats (.error err) s).last_sequence = b.last_sequence := by
  cases err <;> first | rfl | exact absurd rfl h

theorem setSideDeques_frame (b : OrderbookL3) (side : Side) (l : List OrderDeque) :
    (b.setSideDeques side l).last_sequence = b.last_sequence
    ∧ (b.setSideDeques side l).panic_button = b.panic_button
    ∧ (b.setSideDeques side l).outlier_filter = b.outlier_filter
    ∧ (b.setSideDeques side l).order_id_map = b.order_id_map := by
  cases side <;> exact ⟨rfl, rfl, rfl, rfl⟩

theorem check_counter (f : SimpleOutlierFilter) (o : Order) (t : TopLevel) :
    ((f.check o t).2).outliers_encountered = f.outliers_encountered
    ∧ ((f.check o t).2).outlier_factor = f.outlier_factor := by
  unfold SimpleOutlierFilter.check
  cases o <;> dsimp [Order.side] <;> split
  · exact ⟨rfl, rfl⟩
  · split <;> exact ⟨rfl, rfl⟩
  · exact ⟨rfl, rfl⟩
  · split <;> exact ⟨rfl, rfl⟩

theorem check_new_outlier_frame (b : OrderbookL3) (o : Order) :
    (b.check_new_outlier o).2.last_sequence = b.last_sequence
    ∧ (b.check_new_outlier o).2.panic_button = b.panic_button
    ∧ (b.check_new_outlier o).2.filterCounter = b.filterCounter
    ∧ (b.check_new_outlier o).2.bids = b.bids
    ∧ (b.check_new_outlier o).2.asks = b.asks
    ∧ (b.check_new_outlier o).2.order_id_map = b.order_id_map := by
  unfold check_new_outlier
  cases hf : b.outlier_filter with
  | none => exact ⟨rfl, rfl, rfl, rfl, rfl, rfl⟩
  | some f =>
      refine ⟨rfl, rfl, ?_, rfl, rfl, rfl⟩
      simp [filterCounter, hf, (check_counter f o b.top_level).1]

theorem remove_old_outlier_frame (b : OrderbookL3) (id : String) :
    (b.remove_old_outlier id).last_sequence = b.last_sequence
    ∧ (b.remove_old_outlier id).panic_button = b.panic_button
    ∧ (b.remove_old_outlier id).filterCounter = b.filterCounter
    ∧ (b.remove_old_outlier id).bids = b.bids
    ∧ (b.remove_old_outlier id).asks = b.asks
    ∧ (b.remove_old_outlier id).order_id_map = b.order_id_map := by
  unfold remove_old_outlier
  cases hf : b.outlier_filter with
  | none => exact ⟨rfl, rfl, rfl, rfl, rfl, rfl⟩
  | some f => exact ⟨rfl, rfl, by simp [filterCounter, hf], rfl, rfl, rfl⟩

end OrderbookL3

/-! ### List and binary search lemmas -/

theorem get?_set_self {α} (l : List α) (i : Nat) (a : α) (h : i < l.length) :
    (l.set i a).get? i = some a := by
  induction l generalizing i with
  | nil => simp at h
  | cons x xs ih =>
      cases i with
      | zero => rfl
      | succ j => exact ih j (by simpa using h)

theorem mem_set {α} (l : List α) (i : Nat) (a : α) (x : α) (h : x ∈ l.set i a) :
    x = a ∨ x ∈ l := by
  induction l generalizing i with
  | nil => simp at h
  | cons y ys ih =>
      cases i with
      | zero =>
          rcases List.mem_cons.mp h with h1 | h1
          · exact Or.inl h1
          · exact Or.inr (List.mem_cons_of_mem y h1)
      | succ j =>
          rcases List.mem_cons.mp h with h1 | h1
          · exact Or.inr (h1 ▸ List.mem_cons_self y ys)
          · rcases ih j h1 with h2 | h2
            · exact Or.inl h2
            · exact Or.inr (List.mem_cons_of_mem y h2)

theorem eraseIdx_set {α} (l : List α) (i : Nat) (a : α) :
    (l.set i a).eraseIdx i = l.eraseIdx i := by
  induction l generalizing i with
  | nil => rfl
  | cons x xs ih =>
      cases i with
      | zero => rfl
      | succ j => simpa using ih j

theorem mem_vecInsert (l : List OrderDeque) (i : Nat) (a : OrderDeque) (x : OrderDeque)
    (h : x ∈ vecInsert l i a) : x = a ∨ x ∈ l := by
  induction l generalizing i with
  | nil =>
      cases i <;> simp [vecInsert] at h <;> exact Or.inl h
  | cons y ys ih =>
      cases i with
      | zero =>
          rcases List.mem_cons.mp h with h1 | h1
          · exact Or.inl h1
          · exact Or.inr h1
      | succ j =>
          rcases List.mem_cons.mp h with h1 | h1
          · exact Or.inr (h1 ▸ List.mem_cons_self y ys)
          · rcases ih j h1 with h2 | h2
            · exact Or.inl h2
            · exact Or.inr (List.mem_cons_of_mem y h2)

theorem searchAsc_ok (l : List OrderDeque) (p : Frac) :
    ∀ i d, searchAsc l p = .ok (i, d) → l.get? i = some d ∧ d.price.qeq p = true := by
  induction l with
  | nil => intro i d h; simp [searchAsc] at h
  | cons x xs ih =>
      intro i d h
      unfold searchAsc at h
      split at h
      · cases h
        exact ⟨rfl, by assumption⟩
      · split at h
        · cases h
        · cases hrec : searchAsc xs p with
          | ok y =>
              obtain ⟨j, e⟩ := y
              rw [hrec] at h
              cases h
              exact ⟨(ih _ _ hrec).1, (ih _ _ hrec).2⟩
          | error j => rw [hrec] at h; cases h

theorem searchDesc_ok (l : List OrderDeque) (p : Frac) :
    ∀ i d, searchDesc l p = .ok (i, d) → l.get? i = some d ∧ d.price.qeq p = true := by
  induction l with
  | nil => intro i d h; simp [searchDesc] at h
  | cons x xs ih =>
      intro i d h
      unfold searchDesc at h
      split at h
      · cases h
        exact ⟨rfl, by assumption⟩
      · split at h
        · cases h
        · cases hrec : searchDesc xs p with
          | ok y =>
              obtain ⟨j, e⟩ := y
              rw [hrec] at h
              cases h
              exact ⟨(ih _ _ hrec).1, (ih _ _ hrec).2⟩
          | error j => rw [hrec] at h; cases h

/-! ### Operation frame lemmas and totality -/

namespace OrderbookL3

theorem nan_check_ok {o : Order} {q : Frac} (h : nan_check o = .ok q) :
    o.price = F64.fin q := by
  unfold nan_check NonNan.build at h
  cases hp : o.price <;> rw [hp] at h
  · cases h
  · cases h; rfl

theorem build_of_fin {a : AtomicOrder} {q : Frac} (h : a.price = F64.fin q) :
    OrderDeque.build a = some { deque := [a], price := q } := by
  unfold OrderDeque.build NonNan.build
  rw [h]
  rfl

/-- `check_new_outlier` only replaces the filter field, and never touches
the filter's counter. -/
theorem check_new_outlier_eq (b : OrderbookL3) (o : Order) :
    ∃ r fo, b.check_new_outlier o = (r, { b with outlier_filter := fo })
      ∧ fo.map (fun f => f.outliers_encountered) = b.filterCounter := by
  unfold check_new_outlier
  cases hf : b.outlier_filter with
  | none =>
      refine ⟨.ok (), none, ?_, ?_⟩
      · have hb : ({ b with outlier_filter := none } : OrderbookL3) = b := by
          rw [← hf]
        rw [hb]
      · simp [filterCounter, hf]
  | some f =>
      dsimp only []
      cases hc : f.check o b.top_level with
      | mk r f2 =>
          refine ⟨r, some f2, rfl, ?_⟩
          have hcc := (check_counter f o b.top_level).1
          rw [hc] at hcc
          simp [filterCounter, hf]
          exact hcc

theorem get_deque_pos_fst (b : OrderbookL3) (sd : Side) (pc : Frac) :
    (b.get_deque_pos sd pc).1 = sd := by
  cases sd <;> unfold get_deque_pos <;> dsimp only []
  · cases hs : searchDesc b.bids pc with
    | ok y => obtain ⟨j, e⟩ := y; rfl
    | error j => rfl
  · cases hs : searchAsc b.asks pc with
    | ok y => obtain ⟨j, e⟩ := y; rfl
    | error j => rfl

theorem get_deque_pos_ok (b : OrderbookL3) (sd : Side) (pc : Frac) (idx : Nat) (dq : OrderDeque)
    (h : b.get_deque_pos sd pc = (sd, idx, .ok dq)) :
    (b.sideDeques sd).get? idx = some dq := by
  cases sd <;> unfold get_deque_pos at h
  · cases hs : searchDesc b.bids pc with
    | ok y =>
        obtain ⟨j, e⟩ := y
        rw [hs] at h
        simp only [Prod.mk.injEq] at h
        obtain ⟨-, h2, h3⟩ := h
        subst h2
        cases h3
        exact (searchDesc_ok b.bids pc _ _ hs).1
    | error j => rw [hs] at h; simp at h
  · cases hs : searchAsc b.asks pc with
    | ok y =>
        obtain ⟨j, e⟩ := y
        rw [hs] at h
        simp only [Prod.mk.injEq] at h
        obtain ⟨-, h2, h3⟩ := h
        subst h2
        cases h3
        exact (searchAsc_ok b.asks pc _ _ hs).1
    | error j => rw [hs] at h; simp at h

/-- An `ok` result of `get_deque_pos_by_id` designates a real deque at a
valid index of the corresponding side vector. -/
theorem get_deque_pos_by_id_ok {b : OrderbookL3} {id : String} {side : Side}
    {idx : Nat} {dq : OrderDeque}
    (h : b.get_deque_pos_by_id id = .ok (side, idx, .ok dq)) :
    (b.sideDeques side).get? idx = some dq := by
  unfold get_deque_pos_by_id at h
  cases hmg : mapGet b.order_id_map id with
  | none =>
      rw [hmg] at h
      dsimp only [] at h
      split at h <;> exact Except.noConfusion h
  | some sp =>
      rw [hmg] at h
      obtain ⟨sd, pc⟩ := sp
      injection h with h2
      have hside : sd = side := by
        have := get_deque_pos_fst b sd pc
        rw [h2] at this
        exact this.symm
      subst hside
      exact get_deque_pos_ok b sd pc idx dq h2

/-- `insert` never panics (the `unwrap` inside `OrderDeque::build` is
guarded by `nan_check`), and it never touches `last_sequence`,
`panic_button` or the filter's counter. -/
theorem insert_frame (b : OrderbookL3) (o : Order) :
    ∃ r b1, b.insert o = some (r, b1)
      ∧ b1.last_sequence = b.last_sequence
      ∧ b1.panic_button = b.panic_button
      ∧ b1.filterCounter = b.filterCounter := by
  unfold insert
  cases hnan : nan_check o with
  | error e => exact ⟨_, _, rfl, rfl, rfl, rfl⟩
  | ok price =>
      obtain ⟨r1, fo, hco, hcnt⟩ := check_new_outlier_eq b o
      rw [hco]
      cases r1 with
      | error e =>
          exact ⟨_, _, rfl, rfl, rfl, by simpa [filterCounter] using hcnt⟩
      | ok u =>
          cases u
          have hfin := nan_check_ok hnan
          cases o with
          | Bid a ty =>
              dsimp only []
              split
              · exact ⟨_, _, rfl, rfl, rfl, by simpa [filterCounter] using hcnt⟩
              · rw [build_of_fin (q := price) hfin]
                exact ⟨_, _, rfl, rfl, rfl, by simpa [filterCounter] using hcnt⟩
          | Ask a ty =>
              dsimp only []
              split
              · exact ⟨_, _, rfl, rfl, rfl, by simpa [filterCounter] using hcnt⟩
              · rw [build_of_fin (q := price) hfin]
                exact ⟨_, _, rfl, rfl, rfl, by simpa [filterCounter] using hcnt⟩

/-- `delete_deque_if_empty` only touches the side vectors. -/
theorem delete_deque_frame (b : OrderbookL3) (side : Side) (idx : Nat) (b2 : OrderbookL3)
    (h : b.delete_deque_if_empty side idx = some b2) :
    b2.last_sequence = b.last_sequence
    ∧ b2.panic_button = b.panic_button
    ∧ b2.filterCounter = b.filterCounter
    ∧ b2.order_id_map = b.order_id_map := by
  unfold delete_deque_if_empty at h
  cases hg : (b.sideDeques side).get? idx with
  | none => rw [hg] at h; exact Option.noConfusion h
  | some d =>
      rw [hg] at h
      injection h with h2
      subst h2
      split
      · obtain ⟨f1, f2, f3, f4⟩ := setSideDeques_frame b side ((b.sideDeques side).eraseIdx idx)
        exact ⟨f1, f2, by simp [filterCounter, f3], f4⟩
      · exact ⟨rfl, rfl, rfl, rfl⟩

/-- `remove` never panics: the only vector indexing
(`delete_deque_if_empty`) happens at the index the binary search returned,
which stays valid after the in-place deque update.  `remove` never touches
`last_sequence`, `panic_button` or the filter's counter. -/
theorem remove_frame (b : OrderbookL3) (id : String) :
    ∃ r b1, b.remove id = some (r, b1)
      ∧ b1.last_sequence = b.last_sequence
      ∧ b1.panic_button = b.panic_button
      ∧ b1.filterCounter = b.filterCounter := by
  unfold remove
  cases hq : b.get_deque_pos_by_id id with
  | error e =>
      cases e
      case Outlier =>
          obtain ⟨f1, f2, f3, _, _, _⟩ := remove_old_outlier_frame b id
          exact ⟨_, _, rfl, f1, f2, f3⟩
      all_goals exact ⟨_, _, rfl, rfl, rfl, rfl⟩
  | ok pos =>
      obtain ⟨side, idx, maybe⟩ := pos
      cases maybe with
      | error e2 => exact ⟨_, _, rfl, rfl, rfl, rfl⟩
      | ok dq =>
          have hidx := get_deque_pos_by_id_ok hq
          dsimp only []
          cases hrm : dq.removeAt idx with
          | none => exact ⟨_, _, rfl, rfl, rfl, rfl⟩
          | some pr =>
              obtain ⟨a0, deque2⟩ := pr
              have hlt : idx < (b.sideDeques side).length := by
                rcases List.get?_eq_some.mp hidx with ⟨hl, -⟩
                exact hl
              have hget2 : ((b.setSideDeques side ((b.sideDeques side).set idx deque2)).sideDeques side).get? idx = some deque2 := by
                have hss : (b.setSideDeques side ((b.sideDeques side).set idx deque2)).sideDeques side = (b.sideDeques side).set idx deque2 := by
                  cases side <;> rfl
                rw [hss]
                exact get?_set_self _ idx deque2 hlt
              cases side
              case Buy =>
                dsimp only [setSideDeques, sideDeques] at hget2 ⊢
                unfold delete_deque_if_empty
                dsimp only [sideDeques]
                rw [hget2]
                dsimp only []
                split
                · exact ⟨_, _, rfl, rfl, rfl, by simp [filterCounter, setSideDeques]⟩
                · exact ⟨_, _, rfl, rfl, rfl, by simp [filterCounter]⟩
              case Sell =>
                dsimp only [setSideDeques, sideDeques] at hget2 ⊢
                unfold delete_deque_if_empty
                dsimp only [sideDeques]
                rw [hget2]
                dsimp only []
                split
                · exact ⟨_, _, rfl, rfl, rfl, by simp [filterCounter, setSideDeques]⟩
                · exact ⟨_, _, rfl, rfl, rfl, by simp [filterCounter]⟩

/-- `update` is total and only rewrites an order's `size` in place. -/
theorem update_frame (b : OrderbookL3) (id : String) (sz : F64) :
    (b.update id sz).2.last_sequence = b.last_sequence
    ∧ (b.update id sz).2.panic_button = b.panic_button
    ∧ (b.update id sz).2.filterCounter = b.filterCounter
    ∧ (b.update id sz).2.order_id_map = b.order_id_map := by
  unfold update
  cases hq : b.get_deque_pos_by_id id with
  | error e => exact ⟨rfl, rfl, rfl, rfl⟩
  | ok pos =>
      obtain ⟨side, idx, maybe⟩ := pos
      cases maybe with
      | error e2 => exact ⟨rfl, rfl, rfl, rfl⟩
      | ok dq =>
          dsimp only []
          cases hm : dq.modifyOrder id (fun o => { o with size := sz }) with
          | none => exact ⟨rfl, rfl, rfl, rfl⟩
          | some deque2 =>
              obtain ⟨s1, s2, s3, s4⟩ :=
                setSideDeques_frame b side ((b.sideDeques side).set idx deque2)
              exact ⟨s1, s2, by simp [filterCounter, s3], s4⟩

/-- A book whose panic button is off always passes the debug assertion. -/
theorem panicButtonCheck_off (b : OrderbookL3) (h : b.panic_button = false) :
    b.panicButtonCheck = some () := by
  unfold panicButtonCheck
  rw [h]
  rfl

/-- `update_sequence_and_stats` keeps the filter counter. -/
theorem uss_filterCounter (b : OrderbookL3) (r : Except OrderbookError Unit) (s : Sequence) :
    (b.update_sequence_and_stats r s).filterCounter = b.filterCounter := by
  simp [filterCounter, uss_outlier_filter]

/-- Anatomy of a non-panicking `process` step: the post-state is
`update_sequence_and_stats` applied to a dispatch state that preserves
`last_sequence`, `panic_button` and the filter counter; out-of-sequence
events produce the `OutOfSequence` error and leave the data untouched. -/
theorem process_inv (b : OrderbookL3) (e : OrderbookEvent) (r : Except OrderbookError Unit)
    (b' : OrderbookL3) (h : b.process e = some (r, b')) :
    ∃ b1 : OrderbookL3, b' = b1.update_sequence_and_stats r e.sequence
      ∧ b1.last_sequence = b.last_sequence
      ∧ b1.panic_button = b.panic_button
      ∧ b1.filterCounter = b.filterCounter
      ∧ (¬ b.last_sequence < e.sequence →
          r = .error (.OutOfSequence e) ∧ b1.bids = b.bids ∧ b1.asks = b.asks
          ∧ b1.order_id_map = b.order_id_map) := by
  unfold process at h
  dsimp only [] at h
  by_cases hseq : (b.store_event e).last_sequence < e.sequence
  · rw [if_pos hseq] at h
    have hseq2 : b.last_sequence < e.sequence := hseq
    cases e with
    | Received o s =>
        dsimp only [] at h
        split at h
        · exact Option.noConfusion h
        · injection h with h2
          cases h2
          exact ⟨b.store_event (.Received o s), rfl, rfl, rfl, rfl,
            fun hc => absurd hseq2 hc⟩
    | Open o s =>
        obtain ⟨r1, b1, heq, hl, hp, hc⟩ := insert_frame (b.store_event (.Open o s)) o
        dsimp only [] at h
        rw [heq] at h
        dsimp only [] at h
        split at h
        · exact Option.noConfusion h
        · injection h with h2
          cases h2
          exact ⟨b1, rfl, hl, hp, hc, fun hcon => absurd hseq2 hcon⟩
    | Done id s =>
        obtain ⟨r1, b1, heq, hl, hp, hc⟩ := remove_frame (b.store_event (.Done id s)) id
        dsimp only [] at h
        rw [heq] at h
        dsimp only [] at h
        split at h
        · exact Option.noConfusion h
        · injection h with h2
          cases h2
          exact ⟨b1, rfl, hl, hp, hc, fun hcon => absurd hseq2 hcon⟩
    | Change id sz s =>
        obtain ⟨f1, f2, f3, f4⟩ := update_frame (b.store_event (.Change id sz s)) id sz
        cases hu : (b.store_event (.Change id sz s)).update id sz with
        | mk r1 b1 =>
            dsimp only [] at h
            rw [hu] at h f1 f2 f3 f4
            dsimp only [] at h f1 f2 f3 f4
            split at h
            · exact Option.noConfusion h
            · injection h with h2
              cases h2
              exact ⟨b1, rfl, f1, f2, f3, fun hcon => absurd hseq2 hcon⟩
  · rw [if_neg hseq] at h
    dsimp only [] at h
    split at h
    · exact Option.noConfusion h
    · injection h with h2
      cases h2
      exact ⟨b.store_event e, rfl, rfl, rfl, rfl, fun _ => ⟨rfl, rfl, rfl, rfl⟩⟩

/-- C4.  For every sequence of `process` calls, `last_sequence` is
non-decreasing and equals the sequence of the most recently accepted event
(dispatch result `Ok` or `Err(Outlier)`); an event with
`sequence ≤ last_sequence` is rejected as `OutOfSequence` without changing
`bids`, `asks`, `order_id_map` or `last_sequence`; and any error other
than `Outlier` also leaves `last_sequence` unchanged. -/
theorem process_sequence_spec (b : OrderbookL3) (e : OrderbookEvent)
    (r : Except OrderbookError Unit) (b' : OrderbookL3)
    (h : b.process e = some (r, b')) :
    b.last_sequence ≤ b'.last_sequence
  ∧ (e.sequence ≤ b.last_sequence →
      r = .error (.OutOfSequence e) ∧ b'.bids = b.bids ∧ b'.asks = b.asks
      ∧ b'.order_id_map = b.order_id_map ∧ b'.last_sequence = b.last_sequence)
  ∧ ((r = .ok () ∨ r = .error .Outlier) → b'.last_sequence = e.sequence)
  ∧ (∀ err, r = .error err → err ≠ .Outlier → b'.last_sequence = b.last_sequence) := by
  obtain ⟨b1, hb', hl, hp, hc, hout⟩ := process_inv b e r b' h
  subst hb'
  have haccept : (r = .ok () ∨ r = .error .Outlier) →
      (b1.update_sequence_and_stats r e.sequence).last_sequence = e.sequence :=
    fun hr => uss_last_accepted b1 r e.sequence hr
  have hreject : ∀ err, r = .error err → err ≠ .Outlier →
      (b1.update_sequence_and_stats r e.sequence).last_sequence = b.last_sequence := by
    intro err hr hne
    subst hr
    rw [uss_last_rejected b1 err e.sequence hne]
    exact hl
  refine ⟨?_, ?_, haccept, hreject⟩
  · by_cases hseq : b.last_sequence < e.sequence
    · cases r with
      | ok u =>
          cases u
          rw [haccept (Or.inl rfl)]
          exact Nat.le_of_lt hseq
      | error err =>
          by_cases he : err = .Outlier
          · subst he
            rw [haccept (Or.inr rfl)]
            exact Nat.le_of_lt hseq
          · rw [hreject err rfl he]
    · obtain ⟨hr, -, -, -⟩ := hout hseq
      subst hr
      rw [hreject _ rfl (by intro hcon; cases hcon)]
  · intro hle
    have hseq : ¬ b.last_sequence < e.sequence := Nat.not_lt.mpr hle
    obtain ⟨hr, hb, ha, hm⟩ := hout hseq
    subst hr
    refine ⟨rfl, ?_, ?_, ?_, ?_⟩
    · rw [uss_bids]; exact hb
    · rw [uss_asks]; exact ha
    · rw [uss_order_id_map]; exact hm
    · rw [uss_last_rejected b1 _ e.sequence (by intro hcon; cases hcon)]
      exact hl

/-- Witness for C4 at a concrete input: a stale `Done` on a fresh book is
rejected as out-of-sequence and leaves `last_sequence` at 0. -/
theorem process_sequence_spec_witness :
    (processD plainBook (.Done "Z" 0)).1 = .error (.OutOfSequence (.Done "Z" 0))
    ∧ (processD plainBook (.Done "Z" 0)).2.last_sequence = plainBook.last_sequence := by
  have hh := process_sequence_spec plainBook (.Done "Z" 0)
      (processD plainBook (.Done "Z" 0)).1 (processD plainBook (.Done "Z" 0)).2 (by decide)
  have h2 := hh.2.1 (by decide)
  exact ⟨h2.1, h2.2.2.2.2⟩

/-- C9.  For every book built without the panic button and every input
event, `process` returns normally: every potentially panicking operation
reachable from `process` (the NaN `unwrap` in `OrderDeque::build`, the
vector indexing behind the binary search results, and the debug panic
button) is guarded by its precondition. -/
theorem process_no_panic (b : OrderbookL3) (e : OrderbookEvent)
    (h : b.panic_button = false) : (b.process e).isSome := by
  unfold process
  dsimp only []
  by_cases hseq : (b.store_event e).last_sequence < e.sequence
  · rw [if_pos hseq]
    cases e with
    | Received o s =>
        dsimp only []
        rw [panicButtonCheck_off _ (by rw [uss_panic_button, store_event_panic_button]; exact h)]
        rfl
    | Open o s =>
        obtain ⟨r1, b1, heq, hl, hp, hc⟩ := insert_frame (b.store_event (.Open o s)) o
        dsimp only []
        rw [heq]
        dsimp only []
        rw [panicButtonCheck_off _ (by rw [uss_panic_button, hp, store_event_panic_button]; exact h)]
        rfl
    | Done id s =>
        obtain ⟨r1, b1, heq, hl, hp, hc⟩ := remove_frame (b.store_event (.Done id s)) id
        dsimp only []
        rw [heq]
        dsimp only []
        rw [panicButtonCheck_off _ (by rw [uss_panic_button, hp, store_event_panic_button]; exact h)]
        rfl
    | Change id sz s =>
        obtain ⟨f1, f2, f3, f4⟩ := update_frame (b.store_event (.Change id sz s)) id sz
        cases hu : (b.store_event (.Change id sz s)).update id sz with
        | mk r1 b1 =>
            rw [hu] at f2
            dsimp only [] at f2
            dsimp only []
            rw [hu]
            dsimp only []
            rw [panicButtonCheck_off _ (by rw [uss_panic_button, f2, store_event_panic_button]; exact h)]
            rfl
  · rw [if_neg hseq]
    dsimp only []
    rw [panicButtonCheck_off _ (by rw [uss_panic_button, store_event_panic_button]; exact h)]
    rfl

/-- Witness for C9: a fresh book (no panic button) processes an `Open`
without panicking. -/
theorem process_no_panic_witness :
    (plainBook.process (.Open (.Bid ⟨"A", .fin (Frac.ofInt 10), .fin (Frac.ofInt 1)⟩ .Limit) 1)).isSome :=
  process_no_panic plainBook (.Open (.Bid ⟨"A", .fin (Frac.ofInt 10), .fin (Frac.ofInt 1)⟩ .Limit) 1) rfl

/-- A single `process` step never changes the filter's counter. -/
theorem process_filterCounter (b : OrderbookL3) (e : OrderbookEvent)
    (r : Except OrderbookError Unit) (b' : OrderbookL3) (h : b.process e = some (r, b')) :
    b'.filterCounter = b.filterCounter := by
  obtain ⟨b1, hb', -, -, hc, -⟩ := process_inv b e r b' h
  subst hb'
  rw [uss_filterCounter]
  exact hc

/-- C10.  The filter's `outliers_encountered` counter starts at 0 in
`SimpleOutlierFilter::new` and no operation ever increments it (`check`
records ids in `outlier_ids` but never touches the counter), so after any
sequence of `process` calls it is unchanged — still 0 from a fresh build,
even when outliers were rejected. -/
theorem outliers_encountered_stays_zero :
    (∀ factor, (SimpleOutlierFilter.new factor).outliers_encountered = 0)
  ∧ (∀ (f : SimpleOutlierFilter) (o : Order) (t : TopLevel),
      ((f.check o t).2).outliers_encountered = f.outliers_encountered)
  ∧ (∀ (b : OrderbookL3) (es : List OrderbookEvent) (b2 : OrderbookL3),
      b.processMany es = some b2 → b2.filterCounter = b.filterCounter) := by
  refine ⟨fun factor => by cases factor <;> rfl,
          fun f o t => (check_counter f o t).1, ?_⟩
  intro b es
  induction es generalizing b with
  | nil =>
      intro b2 h
      unfold processMany at h
      injection h with h2
      rw [h2]
  | cons e es ih =>
      intro b2 h
      unfold processMany at h
      cases hp : b.process e with
      | none => rw [hp] at h; exact Option.noConfusion h
      | some pr =>
          obtain ⟨r1, b1⟩ := pr
          rw [hp] at h
          dsimp only [] at h
          rw [ih b1 b2 h, process_filterCounter b e r1 b1 hp]

/-- Witness for C10: the filter-enabled book rejects the far bid "X" as an
outlier, yet the counter stays 0. -/
theorem outliers_encountered_stays_zero_witness :
    (SimpleOutlierFilter.new none).outliers_encountered = 0
    ∧ ghostBook.filterCounter = filterBook.filterCounter
    ∧ ghostBook.filterCounter = some 0 := by
  refine ⟨outliers_encountered_stays_zero.1 none, ?_, by decide⟩
  exact outliers_encountered_stays_zero.2.2 filterBook
    [.Open (.Bid ⟨"A", .fin (Frac.ofInt 100), .fin (Frac.ofInt 1)⟩ .Limit) 1,
     .Open (.Bid ⟨"X", .fin (Frac.ofInt 1), .fin (Frac.ofInt 1)⟩ .Limit) 2] ghostBook (by decide)


/-- `process` of a fresh-sequence `Done` reduces to the `remove` dispatch
followed by stats update and the panic check. -/
theorem process_done_eq (b : OrderbookL3) (id : String) (s : Sequence)
    (hseq : b.last_sequence < s) :
    b.process (.Done id s) =
      match (b.store_event (.Done id s)).remove id with
      | none => none
      | some (result, b1) =>
          match (b1.update_sequence_and_stats result s).panicButtonCheck with
          | none => none
          | some () => some (result, b1.update_sequence_and_stats result s) := by
  unfold process
  dsimp only []
  rw [if_pos (show (b.store_event (.Done id s)).last_sequence
        < (OrderbookEvent.Done id s).sequence from hseq)]
  rfl

/-- `process` of a fresh-sequence `Change` reduces to the `update` dispatch
followed by stats update and the panic check. -/
theorem process_change_eq (b : OrderbookL3) (id : String) (sz : F64) (s : Sequence)
    (hseq : b.last_sequence < s) :
    b.process (.Change id sz s) =
      match (b.store_event (.Change id sz s)).update id sz with
      | (result, b1) =>
          match (b1.update_sequence_and_stats result s).panicButtonCheck with
          | none => none
          | some () => some (result, b1.update_sequence_and_stats result s) := by
  unfold process
  dsimp only []
  rw [if_pos (show (b.store_event (.Change id sz s)).last_sequence
        < (OrderbookEvent.Change id sz s).sequence from hseq)]
  rfl

/-- C6.  While an id is recorded by the outlier filter and absent from
`order_id_map`, a later `Done(id)` resolves to `Outlier` (not
`OrderNotFoundInMap`) and evicts the id from the filter's recorded set,
and a later `Change(id, sz)` resolves to `Outlier` without evicting it. -/
theorem outlier_ghost_done_change (b : OrderbookL3) (f : SimpleOutlierFilter)
    (id : String) (sz : F64) (s : Sequence)
    (hf : b.outlier_filter = some f)
    (hrec : f.outlier_ids.contains id = true)
    (hmap : mapGet b.order_id_map id = none)
    (hseq : b.last_sequence < s) :
    (∀ r b', b.process (.Done id s) = some (r, b') →
        r = .error .Outlier
        ∧ b'.outlier_filter = some { f with outlier_ids := setRemove f.outlier_ids id })
  ∧ (∀ r b', b.process (.Change id sz s) = some (r, b') →
        r = .error .Outlier ∧ b'.outlier_filter = some f) := by
  have hgd : ∀ e : OrderbookEvent, (b.store_event e).get_deque_pos_by_id id = .error .Outlier := by
    intro e
    unfold get_deque_pos_by_id
    rw [show mapGet (b.store_event e).order_id_map id = none from hmap]
    dsimp only []
    rw [show (b.store_event e).check_old_outlier id = true from by
      unfold check_old_outlier
      rw [store_event_outlier_filter, hf]
      exact hrec]
    rfl
  constructor
  · intro r b' h
    have hrem : (b.store_event (.Done id s)).remove id
        = some (.error .Outlier, (b.store_event (.Done id s)).remove_old_outlier id) := by
      unfold remove
      rw [hgd (.Done id s)]
    have hro : (b.store_event (.Done id s)).remove_old_outlier id
        = { b.store_event (.Done id s) with
            outlier_filter := some { f with outlier_ids := setRemove f.outlier_ids id } } := by
      unfold remove_old_outlier
      rw [store_event_outlier_filter, hf]
    rw [process_done_eq b id s hseq, hrem] at h
    dsimp only [] at h
    split at h
    · exact Option.noConfusion h
    · injection h with h2
      cases h2
      refine ⟨rfl, ?_⟩
      rw [uss_outlier_filter, hro]
  · intro r b' h
    have hupd : (b.store_event (.Change id sz s)).update id sz
        = (.error .Outlier, b.store_event (.Change id sz s)) := by
      unfold update
      rw [hgd (.Change id sz s)]
    rw [process_change_eq b id sz s hseq, hupd] at h
    dsimp only [] at h
    split at h
    · exact Option.noConfusion h
    · injection h with h2
      cases h2
      refine ⟨rfl, ?_⟩
      rw [uss_outlier_filter, store_event_outlier_filter]
      exact hf

/-- Witness for C6: on the concrete ghost book, `Done "X"` yields
`Outlier` and evicts "X"; the id was never `OrderNotFoundInMap`. -/
theorem outlier_ghost_done_change_witness :
    (processD ghostBook (.Done "X" 3)).1 = .error .Outlier
    ∧ (processD ghostBook (.Done "X" 3)).2.outlier_filter
        = some { outlier_factor := F64.fin ⟨1, 1⟩,
                 outlier_ids := setRemove ["X"] "X",
                 outliers_encountered := 0 } := by
  have hh := outlier_ghost_done_change ghostBook
      ⟨F64.fin ⟨1, 1⟩, ["X"], 0⟩ "X" (F64.fin (Frac.ofInt 0)) 3
      (by decide) (by decide) (by decide) (by decide)
  exact hh.1 _ _ (by decide)

/-- C5.  The outlier filter accepts whenever the book reports the 0.0
sentinel as best on the order's side; otherwise it records the id and
rejects with `Outlier` exactly when a Buy's price is below
`best_bid × (1 − f)` or a Sell's price is above `best_ask × (1 + f)`
(under `partial_cmp`, so NaN comparisons accept); in all other cases it
accepts without recording. -/
theorem outlier_check_spec (f : SimpleOutlierFilter) (o : Order) (top : TopLevel) :
    (((o.side = Side.Buy ∧ F64.beq top.1 DEFAULT_BEST_BID = true)
      ∨ (o.side = Side.Sell ∧ F64.beq top.2 DEFAULT_BEST_ASK = true)) →
        f.check o top = (.ok (), f))
  ∧ ((f.check o top).1 = .error .Outlier ↔
      ((o.side = Side.Buy ∧ F64.beq top.1 DEFAULT_BEST_BID = false
          ∧ (o.price.flt (top.1 * (F64.fin (Frac.ofInt 1) - f.outlier_factor))) = true)
     ∨ (o.side = Side.Sell ∧ F64.beq top.2 DEFAULT_BEST_ASK = false
          ∧ (o.price.fgt (top.2 * (F64.fin (Frac.ofInt 1) + f.outlier_factor))) = true)))
  ∧ ((f.check o top).1 = .error .Outlier →
      (f.check o top).2 = { f with outlier_ids := setInsert f.outlier_ids o.id })
  ∧ ((f.check o top).1 ≠ .error .Outlier → f.check o top = (.ok (), f)) := by
  obtain ⟨bb, ba⟩ := top
  cases o with
  | Bid a ty =>
      unfold SimpleOutlierFilter.check
      dsimp only [Order.side, Order.price, Order.id]
      by_cases h0 : F64.beq bb DEFAULT_BEST_BID = true
      · rw [if_pos h0]
        refine ⟨fun _ => rfl, ?_, ?_, fun _ => rfl⟩
        · simp [h0]
        · intro hcon; cases hcon
      · rw [if_neg h0]
        have h0f : F64.beq bb DEFAULT_BEST_BID = false := by
          cases hb : F64.beq bb DEFAULT_BEST_BID
          · rfl
          · exact absurd hb h0
        cases hcmp : a.price.pcmp (bb * (F64.fin (Frac.ofInt 1) - f.outlier_factor)) with
        | none =>
            refine ⟨fun hor => ?_, ?_, ?_, fun _ => rfl⟩
            · rcases hor with ⟨-, hz⟩ | ⟨hs, -⟩
              · exact absurd hz h0
              · cases hs
            · simp +decide [F64.flt, F64.fgt, hcmp, h0f]
            · intro hcon; cases hcon
        | some ord =>
            cases ord with
            | lt =>
                refine ⟨fun hor => ?_, ?_, fun _ => rfl, fun hcon => absurd rfl hcon⟩
                · rcases hor with ⟨-, hz⟩ | ⟨hs, -⟩
                  · exact absurd hz h0
                  · cases hs
                · simp +decide [F64.flt, hcmp, h0f]
            | eq =>
                refine ⟨fun hor => ?_, ?_, ?_, fun _ => rfl⟩
                · rcases hor with ⟨-, hz⟩ | ⟨hs, -⟩
                  · exact absurd hz h0
                  · cases hs
                · simp +decide [F64.flt, F64.fgt, hcmp, h0f]
                · intro hcon; cases hcon
            | gt =>
                refine ⟨fun hor => ?_, ?_, ?_, fun _ => rfl⟩
                · rcases hor with ⟨-, hz⟩ | ⟨hs, -⟩
                  · exact absurd hz h0
                  · cases hs
                · simp +decide [F64.flt, F64.fgt, hcmp, h0f]
                · intro hcon; cases hcon
  | Ask a ty =>
      unfold SimpleOutlierFilter.check
      dsimp only [Order.side, Order.price, Order.id]
      by_cases h0 : F64.beq ba DEFAULT_BEST_ASK = true
      · rw [if_pos h0]
        refine ⟨fun _ => rfl, ?_, ?_, fun _ => rfl⟩
        · simp [h0]
        · intro hcon; cases hcon
      · rw [if_neg h0]
        have h0f : F64.beq ba DEFAULT_BEST_ASK = false := by
          cases hb : F64.beq ba DEFAULT_BEST_ASK
          · rfl
          · exact absurd hb h0
        cases hcmp : a.price.pcmp (ba * (F64.fin (Frac.ofInt 1) + f.outlier_factor)) with
        | none =>
            refine ⟨fun hor => ?_, ?_, ?_, fun _ => rfl⟩
            · rcases hor with ⟨hs, -⟩ | ⟨-, hz⟩
              · cases hs
              · exact absurd hz h0
            · simp +decide [F64.flt, F64.fgt, hcmp, h0f]
            · intro hcon; cases hcon
        | some ord =>
            cases ord with
            | gt =>
                refine ⟨fun hor => ?_, ?_, fun _ => rfl, fun hcon => absurd rfl hcon⟩
                · rcases hor with ⟨hs, -⟩ | ⟨-, hz⟩
                  · cases hs
                  · exact absurd hz h0
                · simp +decide [F64.fgt, hcmp, h0f]
            | eq =>
                refine ⟨fun hor => ?_, ?_, ?_, fun _ => rfl⟩
                · rcases hor with ⟨hs, -⟩ | ⟨-, hz⟩
                  · cases hs
                  · exact absurd hz h0
                · simp +decide [F64.flt, F64.fgt, hcmp, h0f]
                · intro hcon; cases hcon
            | lt =>
                refine ⟨fun hor => ?_, ?_, ?_, fun _ => rfl⟩
                · rcases hor with ⟨hs, -⟩ | ⟨-, hz⟩
                  · cases hs
                  · exact absurd hz h0
                · simp +decide [F64.flt, F64.fgt, hcmp, h0f]
                · intro hcon; cases hcon

/-- Witness for C5: with best bid 100 and factor 0.5, a bid at 1 is
rejected as an outlier and recorded. -/
theorem outlier_check_spec_witness :
    ((SimpleOutlierFilter.new none).check
        (.Bid ⟨"X", .fin (Frac.ofInt 1), .fin (Frac.ofInt 1)⟩ .Limit)
        (F64.fin (Frac.ofInt 100), F64.fin (Frac.ofInt 0))).1 = .error .Outlier := by
  refine (outlier_check_spec (SimpleOutlierFilter.new none)
      (.Bid ⟨"X", .fin (Frac.ofInt 1), .fin (Frac.ofInt 1)⟩ .Limit)
      (F64.fin (Frac.ofInt 100), F64.fin (Frac.ofInt 0))).2.1.mpr ?_
  left
  exact ⟨rfl, by decide, by decide⟩

/-- C1 (code bug).  `remove` does not linear-scan the deque for the id: it
removes the element at the deque's own index in the side vector.  On the
reachable book with one ask level `[A, B]` at index 0, `remove "B"`
succeeds yet deletes order "A" and leaves "B" resting (with "B" gone and
"A" still present in the map). -/
theorem remove_bug_eval :
    (twoAsksBook.remove "B").map (fun rb =>
      (rb.1, rb.2.asks.map (fun d => d.deque.map (fun o => o.id)),
       rb.2.order_id_map.map (fun kv => kv.1)))
    = some (.ok (), [["B"]], ["A"]) := by decide

/-- C2 (code bug).  After the successful `process` calls `Open(A@1005, 1)`,
`Open(B@1005, 2)`, `Done("B", 3)` (the last accepted: `last_sequence = 3`),
the map still holds "A" pointing at (Sell, 1005) but that deque contains
only an order with id "B": both directions of the id-map/deque invariant
are violated. -/
theorem invariant_bug_eval :
    plainBook.processMany c2Events = some c2Book
    ∧ c2Book.last_sequence = 3
    ∧ c2Book.order_id_map = [("A", Side.Sell, Frac.ofInt 1005)]
    ∧ c2Book.asks.map (fun d => d.deque.map (fun o => o.id)) = [["B"]] := by decide

/-- C3 (code bug).  Starting from the book holding one bid "A" at 997,
`Open(B@996, 2)` then `Done("B", 3)` does not restore the book: the
removal resolves level index 1 and calls `deque.remove(1)` on the
one-element deque, fails with `OrderNotFoundInDeque`, and leaves both the
996 level and the map entry for "B" behind. -/
theorem open_done_roundtrip_bug_eval :
    oneBidBook.bids.map (fun d => (d.price, d.deque.map (fun o => o.id)))
      = [(Frac.ofInt 997, ["A"])]
    ∧ oneBidBook.order_id_map.map (fun kv => kv.1) = ["A"]
    ∧ oneBidBook.processMany c3Events = some c3Book
    ∧ c3Book.bids.map (fun d => (d.price, d.deque.map (fun o => o.id)))
      = [(Frac.ofInt 997, ["A"]), (Frac.ofInt 996, ["B"])]
    ∧ c3Book.order_id_map.map (fun kv => kv.1) = ["B", "A"] := by decide


/-! ### Order facts for `Frac` and pairwise lemmas for C7 -/

theorem den_pos (a : Frac) : (0 : Int) < a.den :=
  Int.ofNat_pos.mpr (Nat.succ_pos a.den1)

theorem qlt_trans (a b c : Frac) (h1 : a.qlt b = true) (h2 : b.qlt c = true) :
    a.qlt c = true := by
  simp [Frac.qlt] at *
  nlinarith [mul_lt_mul_of_pos_right h1 (den_pos c),
             mul_lt_mul_of_pos_right h2 (den_pos a), den_pos b]

theorem qlt_of_not_qeq_not_qlt (a b : Frac) (h1 : a.qeq b = false) (h2 : b.qlt a = false) :
    a.qlt b = true := by
  simp [Frac.qeq, Frac.qlt] at *
  omega

theorem qeq_false_comm (a b : Frac) (h : a.qeq b = false) : b.qeq a = false := by
  simp [Frac.qeq] at *
  omega

theorem set_ne_nil {α} (l : List α) (i : Nat) (a : α) (h : l ≠ []) : l.set i a ≠ [] := by
  cases l
  · exact absurd rfl h
  · cases i <;> simp

theorem pairwise_set_price (S : Frac → Frac → Prop) (l : List OrderDeque) (i : Nat)
    (d d' : OrderDeque) (hget : l.get? i = some d) (hp : d'.price = d.price)
    (hsort : l.Pairwise (fun x y => S x.price y.price)) :
    (l.set i d').Pairwise (fun x y => S x.price y.price) := by
  induction l generalizing i with
  | nil => simp at hget
  | cons x xs ih =>
      cases i with
      | zero =>
          injection hget with h0
          subst h0
          rw [show (x :: xs).set 0 d' = d' :: xs from rfl]
          rw [List.pairwise_cons] at hsort ⊢
          exact ⟨fun y hy => hp ▸ hsort.1 y hy, hsort.2⟩
      | succ j =>
          rw [show (x :: xs).set (j + 1) d' = x :: xs.set j d' from rfl]
          rw [List.pairwise_cons] at hsort ⊢
          refine ⟨?_, ih j hget hsort.2⟩
          intro y hy
          rcases mem_set xs j d' y hy with h1 | h1
          · subst h1
            rw [hp]
            exact hsort.1 d (List.get?_mem hget)
          · exact hsort.1 y h1

/-- Inserting a new deque with the searched price at the gap position the
search returned keeps the asks vector strictly ascending. -/
theorem searchAsc_insert (l : List OrderDeque) (p : Frac) (i : Nat) (nd : OrderDeque)
    (hnd : nd.price = p)
    (hsort : l.Pairwise (fun x y => x.price.qlt y.price = true))
    (hs : searchAsc l p = .error i) :
    (vecInsert l i nd).Pairwise (fun x y => x.price.qlt y.price = true) := by
  induction l generalizing i with
  | nil =>
      unfold searchAsc at hs
      injection hs with h0
      subst h0
      simp [vecInsert]
  | cons d ds ih =>
      unfold searchAsc at hs
      split at hs
      · cases hs
      · rename_i hne
        rw [List.pairwise_cons] at hsort
        split at hs
        · rename_i hplt
          injection hs with h0
          subst h0
          rw [show vecInsert (d :: ds) 0 nd = nd :: d :: ds from rfl]
          rw [List.pairwise_cons, List.pairwise_cons]
          refine ⟨?_, hsort.1, hsort.2⟩
          intro y hy
          rcases List.mem_cons.mp hy with h1 | h1
          · subst h1
            rw [hnd]
            exact hplt
          · rw [hnd]
            exact qlt_trans p d.price y.price hplt (hsort.1 y h1)
        · rename_i hplt
          have hdp : d.price.qlt p = true := by
            apply qlt_of_not_qeq_not_qlt
            · cases hqe : d.price.qeq p
              · rfl
              · exact absurd hqe hne
            · cases hq2 : p.qlt d.price
              · rfl
              · exact absurd hq2 hplt
          cases hrec : searchAsc ds p with
          | ok y => rw [hrec] at hs; cases hs
          | error j =>
              rw [hrec] at hs
              injection hs with h0
              subst h0
              rw [show vecInsert (d :: ds) (j + 1) nd = d :: vecInsert ds j nd from rfl]
              rw [List.pairwise_cons]
              refine ⟨?_, ih j hsort.2 hrec⟩
              intro y hy
              rcases mem_vecInsert ds j nd y hy with h1 | h1
              · subst h1
                rw [hnd]
                exact hdp
              · exact hsort.1 y h1

/-- Inserting a new deque with the searched price at the gap position the
search returned keeps the bids vector strictly descending. -/
theorem searchDesc_insert (l : List OrderDeque) (p : Frac) (i : Nat) (nd : OrderDeque)
    (hnd : nd.price = p)
    (hsort : l.Pairwise (fun x y => y.price.qlt x.price = true))
    (hs : searchDesc l p = .error i) :
    (vecInsert l i nd).Pairwise (fun x y => y.price.qlt x.price = true) := by
  induction l generalizing i with
  | nil =>
      unfold searchDesc at hs
      injection hs with h0
      subst h0
      simp [vecInsert]
  | cons d ds ih =>
      unfold searchDesc at hs
      split at hs
      · cases hs
      · rename_i hne
        rw [List.pairwise_cons] at hsort
        split at hs
        · rename_i hplt
          injection hs with h0
          subst h0
          rw [show vecInsert (d :: ds) 0 nd = nd :: d :: ds from rfl]
          rw [List.pairwise_cons, List.pairwise_cons]
          refine ⟨?_, hsort.1, hsort.2⟩
          intro y hy
          rcases List.mem_cons.mp hy with h1 | h1
          · subst h1
            rw [hnd]
            exact hplt
          · rw [hnd]
            exact qlt_trans y.price d.price p (hsort.1 y h1) hplt
        · rename_i hplt
          have hdp : p.qlt d.price = true := by
            apply qlt_of_not_qeq_not_qlt
            · apply qeq_false_comm
              cases hqe : d.price.qeq p
              · rfl
              · exact absurd hqe hne
            · cases hq2 : d.price.qlt p
              · rfl
              · exact absurd hq2 hplt
          cases hrec : searchDesc ds p with
          | ok y => rw [hrec] at hs; cases hs
          | error j =>
              rw [hrec] at hs
              injection hs with h0
              subst h0
              rw [show vecInsert (d :: ds) (j + 1) nd = d :: vecInsert ds j nd from rfl]
              rw [List.pairwise_cons]
              refine ⟨?_, ih j hsort.2 hrec⟩
              intro y hy
              rcases mem_vecInsert ds j nd y hy with h1 | h1
              · subst h1
                rw [hnd]
                exact hdp
              · exact hsort.1 y h1

/-- Two books with the same side vectors share the shape invariant. -/
theorem wf_of_fields {b b2 : OrderbookL3} (hb : b2.bids = b.bids) (ha : b2.asks = b.asks)
    (h : b.wellFormedLevels) : b2.wellFormedLevels := by
  unfold wellFormedLevels at *
  rw [hb, ha]
  exact h

/-- `VecDeque::remove` keeps the level's price and erases the element. -/
theorem removeAt_spec (d : OrderDeque) (i : Nat) (pr : AtomicOrder × OrderDeque)
    (h : d.removeAt i = some pr) :
    pr.2.price = d.price ∧ pr.2.deque = d.deque.eraseIdx i := by
  unfold OrderDeque.removeAt at h
  cases hg : d.deque.get? i with
  | none => rw [hg] at h; cases h
  | some a =>
      rw [hg] at h
      injection h with h2
      subst h2
      exact ⟨rfl, rfl⟩

/-- `get_mut` + size write keeps the level's price and its population. -/
theorem modifyOrder_spec (d : OrderDeque) (id : String) (f : AtomicOrder → AtomicOrder)
    (d2 : OrderDeque) (h : d.modifyOrder id f = some d2) :
    d2.price = d.price ∧ (d.deque ≠ [] → d2.deque ≠ []) := by
  unfold OrderDeque.modifyOrder at h
  cases hf : d.deque.findIdx? (fun o => o.id == id) with
  | none => rw [hf] at h; cases h
  | some j =>
      rw [hf] at h
      injection h with h2
      subst h2
      dsimp only []
      cases hg : d.deque.get? j with
      | none => exact ⟨rfl, fun hne => hne⟩
      | some o => exact ⟨rfl, fun hne => set_ne_nil d.deque j (f o) hne⟩

/-- `insert` preserves sortedness and the no-empty-deque property. -/
theorem insert_wf (b : OrderbookL3) (o : Order) (r : Except OrderbookError Unit)
    (b1 : OrderbookL3) (h : b.insert o = some (r, b1)) (hwf : b.wellFormedLevels) :
    b1.wellFormedLevels := by
  obtain ⟨hwb, hwa, hnb, hna⟩ := hwf
  unfold insert at h
  cases hnan : nan_check o with
  | error e =>
      rw [hnan] at h
      injection h with h2
      cases h2
      exact ⟨hwb, hwa, hnb, hna⟩
  | ok price =>
      rw [hnan] at h
      obtain ⟨r1, fo, hco, -⟩ := check_new_outlier_eq b o
      rw [hco] at h
      cases r1 with
      | error e =>
          injection h with h2
          cases h2
          exact ⟨hwb, hwa, hnb, hna⟩
      | ok u =>
          cases u
          have hfin := nan_check_ok hnan
          cases o with
          | Bid a ty =>
              dsimp only [] at h
              split at h
              · rename_i pos d heq
                injection h with h2
                cases h2
                refine ⟨?_, hwa, ?_, hna⟩
                · exact pairwise_set_price (fun p1 p2 => p2.qlt p1 = true) b.bids pos d
                    (d.push_back a) (searchDesc_ok b.bids price pos d heq).1 rfl hwb
                · intro x hx
                  rcases mem_set b.bids pos (d.push_back a) x hx with h1 | h1
                  · subst h1
                    simp [OrderDeque.push_back]
                  · exact hnb x h1
              · rename_i pos heq
                rw [build_of_fin (q := price) hfin] at h
                injection h with h2
                cases h2
                refine ⟨?_, hwa, ?_, hna⟩
                · exact searchDesc_insert b.bids price pos { deque := [a], price := price }
                    rfl hwb heq
                · intro x hx
                  rcases mem_vecInsert b.bids pos { deque := [a], price := price } x hx with h1 | h1
                  · subst h1
                    simp
                  · exact hnb x h1
          | Ask a ty =>
              dsimp only [] at h
              split at h
              · rename_i pos d heq
                injection h with h2
                cases h2
                refine ⟨hwb, ?_, hnb, ?_⟩
                · exact pairwise_set_price (fun p1 p2 => p1.qlt p2 = true) b.asks pos d
                    (d.push_back a) (searchAsc_ok b.asks price pos d heq).1 rfl hwa
                · intro x hx
                  rcases mem_set b.asks pos (d.push_back a) x hx with h1 | h1
                  · subst h1
                    simp [OrderDeque.push_back]
                  · exact hna x h1
              · rename_i pos heq
                rw [build_of_fin (q := price) hfin] at h
                injection h with h2
                cases h2
                refine ⟨hwb, ?_, hnb, ?_⟩
                · exact searchAsc_insert b.asks price pos { deque := [a], price := price }
                    rfl hwa heq
                · intro x hx
                  rcases mem_vecInsert b.asks pos { deque := [a], price := price } x hx with h1 | h1
                  · subst h1
                    simp
                  · exact hna x h1

/-- `remove` preserves sortedness and the no-empty-deque property:
the touched deque keeps its price, and if it empties it is deleted at the
same index. -/
theorem remove_wf (b : OrderbookL3) (id : String) (r : Except OrderbookError Unit)
    (b1 : OrderbookL3) (h : b.remove id = some (r, b1)) (hwf : b.wellFormedLevels) :
    b1.wellFormedLevels := by
  unfold remove at h
  cases hq : b.get_deque_pos_by_id id with
  | error e =>
      rw [hq] at h
      cases e
      case Outlier =>
          injection h with h2
          cases h2
          obtain ⟨-, -, -, f4, f5, -⟩ := remove_old_outlier_frame b id
          exact wf_of_fields f4 f5 hwf
      all_goals (injection h with h2; cases h2; exact hwf)
  | ok pos =>
      rw [hq] at h
      obtain ⟨side, idx, maybe⟩ := pos
      cases maybe with
      | error e2 =>
          injection h with h2
          cases h2
          exact hwf
      | ok dq =>
          have hidx := get_deque_pos_by_id_ok hq
          dsimp only [] at h
          cases hrm : dq.removeAt idx with
          | none =>
              rw [hrm] at h
              injection h with h2
              cases h2
              exact hwf
          | some pr =>
              rw [hrm] at h
              obtain ⟨a0, deque2⟩ := pr
              obtain ⟨hprice, hdq2⟩ := removeAt_spec dq idx (a0, deque2) hrm
              obtain ⟨hwb, hwa, hnb, hna⟩ := hwf
              have hlt : idx < (b.sideDeques side).length := by
                rcases List.get?_eq_some.mp hidx with ⟨hl, -⟩
                exact hl
              cases side
              case Buy =>
                dsimp only [sideDeques] at hidx hlt
                have hget2 : (b.bids.set idx deque2).get? idx = some deque2 :=
                  get?_set_self b.bids idx deque2 hlt
                unfold delete_deque_if_empty at h
                dsimp only [setSideDeques, sideDeques] at h
                rw [hget2] at h
                dsimp only [] at h
                split at h
                · rename_i hemp
                  injection h with h2
                  cases h2
                  rw [show ((b.bids.set idx deque2).eraseIdx idx) = b.bids.eraseIdx idx from
                    eraseIdx_set b.bids idx deque2]
                  refine ⟨hwb.sublist (List.eraseIdx_sublist b.bids idx), hwa, ?_, hna⟩
                  intro x hx
                  exact hnb x ((List.eraseIdx_sublist b.bids idx).mem hx)
                · rename_i hemp
                  injection h with h2
                  cases h2
                  refine ⟨?_, hwa, ?_, hna⟩
                  · exact pairwise_set_price (fun p1 p2 => p2.qlt p1 = true) b.bids idx dq
                      deque2 hidx hprice hwb
                  · intro x hx
                    rcases mem_set b.bids idx deque2 x hx with h1 | h1
                    · subst h1
                      intro hcon
                      rw [hcon] at hemp
                      exact hemp rfl
                    · exact hnb x h1
              case Sell =>
                dsimp only [sideDeques] at hidx hlt
                have hget2 : (b.asks.set idx deque2).get? idx = some deque2 :=
                  get?_set_self b.asks idx deque2 hlt
                unfold delete_deque_if_empty at h
                dsimp only [setSideDeques, sideDeques] at h
                rw [hget2] at h
                dsimp only [] at h
                split at h
                · rename_i hemp
                  injection h with h2
                  cases h2
                  rw [show ((b.asks.set idx deque2).eraseIdx idx) = b.asks.eraseIdx idx from
                    eraseIdx_set b.asks idx deque2]
                  refine ⟨hwb, hwa.sublist (List.eraseIdx_sublist b.asks idx), hnb, ?_⟩
                  intro x hx
                  exact hna x ((List.eraseIdx_sublist b.asks idx).mem hx)
                · rename_i hemp
                  injection h with h2
                  cases h2
                  refine ⟨hwb, ?_, hnb, ?_⟩
                  · exact pairwise_set_price (fun p1 p2 => p1.qlt p2 = true) b.asks idx dq
                      deque2 hidx hprice hwa
                  · intro x hx
                    rcases mem_set b.asks idx deque2 x hx with h1 | h1
                    · subst h1
                      intro hcon
                      rw [hcon] at hemp
                      exact hemp rfl
                    · exact hna x h1

/-- `update` preserves sortedness and the no-empty-deque property. -/
theorem update_wf (b : OrderbookL3) (id : String) (sz : F64)
    (hwf : b.wellFormedLevels) : (b.update id sz).2.wellFormedLevels := by
  unfold update
  cases hq : b.get_deque_pos_by_id id with
  | error e => exact hwf
  | ok pos =>
      obtain ⟨side, idx, maybe⟩ := pos
      cases maybe with
      | error e2 => exact hwf
      | ok dq =>
          have hidx := get_deque_pos_by_id_ok hq
          dsimp only []
          cases hm : dq.modifyOrder id (fun o => { o with size := sz }) with
          | none => exact hwf
          | some deque2 =>
              obtain ⟨hprice, hne⟩ := modifyOrder_spec dq id _ deque2 hm
              obtain ⟨hwb, hwa, hnb, hna⟩ := hwf
              cases side
              case Buy =>
                dsimp only [sideDeques] at hidx
                dsimp only [setSideDeques, sideDeques]
                refine ⟨?_, hwa, ?_, hna⟩
                · exact pairwise_set_price (fun p1 p2 => p2.qlt p1 = true) b.bids idx dq
                    deque2 hidx hprice hwb
                · intro x hx
                  rcases mem_set b.bids idx deque2 x hx with h1 | h1
                  · subst h1
                    exact hne (hnb dq (List.get?_mem hidx))
                  · exact hnb x h1
              case Sell =>
                dsimp only [sideDeques] at hidx
                dsimp only [setSideDeques, sideDeques]
                refine ⟨hwb, ?_, hnb, ?_⟩
                · exact pairwise_set_price (fun p1 p2 => p1.qlt p2 = true) b.asks idx dq
                    deque2 hidx hprice hwa
                · intro x hx
                  rcases mem_set b.asks idx deque2 x hx with h1 | h1
                  · subst h1
                    exact hne (hna dq (List.get?_mem hidx))
                  · exact hna x h1

/-- C7.  After every `process` call, the bids vector is strictly
descending in price, the asks vector strictly ascending (so no two deques
on one side share a price), and no deque on either side is empty. -/
theorem levels_sorted_nonempty_preserved (b : OrderbookL3) (e : OrderbookEvent)
    (r : Except OrderbookError Unit) (b' : OrderbookL3)
    (hwf : b.wellFormedLevels) (h : b.process e = some (r, b')) :
    b'.wellFormedLevels := by
  have hwf0 : (b.store_event e).wellFormedLevels :=
    wf_of_fields (store_event_bids b e) (store_event_asks b e) hwf
  unfold process at h
  dsimp only [] at h
  by_cases hseq : (b.store_event e).last_sequence < e.sequence
  · rw [if_pos hseq] at h
    cases e with
    | Received o s =>
        dsimp only [] at h
        split at h
        · exact Option.noConfusion h
        · injection h with h2
          cases h2
          exact wf_of_fields (uss_bids _ _ _) (uss_asks _ _ _) hwf0
    | Open o s =>
        obtain ⟨r1, b1, heq, -, -, -⟩ := insert_frame (b.store_event (.Open o s)) o
        have hwf1 := insert_wf _ o r1 b1 heq hwf0
        dsimp only [] at h
        rw [heq] at h
        dsimp only [] at h
        split at h
        · exact Option.noConfusion h
        · injection h with h2
          cases h2
          exact wf_of_fields (uss_bids _ _ _) (uss_asks _ _ _) hwf1
    | Done id s =>
        obtain ⟨r1, b1, heq, -, -, -⟩ := remove_frame (b.store_event (.Done id s)) id
        have hwf1 := remove_wf _ id r1 b1 heq hwf0
        dsimp only [] at h
        rw [heq] at h
        dsimp only [] at h
        split at h
        · exact Option.noConfusion h
        · injection h with h2
          cases h2
          exact wf_of_fields (uss_bids _ _ _) (uss_asks _ _ _) hwf1
    | Change id sz s =>
        have hwf1 := update_wf (b.store_event (.Change id sz s)) id sz hwf0
        cases hu : (b.store_event (.Change id sz s)).update id sz with
        | mk r1 b1 =>
            rw [hu] at hwf1
            dsimp only [] at h hwf1
            rw [hu] at h
            dsimp only [] at h
            split at h
            · exact Option.noConfusion h
            · injection h with h2
              cases h2
              exact wf_of_fields (uss_bids _ _ _) (uss_asks _ _ _) hwf1
  · rw [if_neg hseq] at h
    dsimp only [] at h
    split at h
    · exact Option.noConfusion h
    · injection h with h2
      cases h2
      exact wf_of_fields (uss_bids _ _ _) (uss_asks _ _ _) hwf0

/-- Witness for C7 on a concrete step: the two-ask book is well formed and
stays well formed after a further `Open` at a new price. -/
theorem levels_sorted_nonempty_preserved_witness :
    twoAsksBook.wellFormedLevels
    ∧ (processD twoAsksBook (.Open (.Ask ⟨"C", .fin (Frac.ofInt 1004), .fin (Frac.ofInt 1)⟩ .Limit) 3)).2.wellFormedLevels := by
  refine ⟨by decide, ?_⟩
  exact levels_sorted_nonempty_preserved twoAsksBook
    (.Open (.Ask ⟨"C", .fin (Frac.ofInt 1004), .fin (Frac.ofInt 1)⟩ .Limit) 3)
    (processD twoAsksBook (.Open (.Ask ⟨"C", .fin (Frac.ofInt 1004), .fin (Frac.ofInt 1)⟩ .Limit) 3)).1
    (processD twoAsksBook (.Open (.Ask ⟨"C", .fin (Frac.ofInt 1004), .fin (Frac.ofInt 1)⟩ .Limit) 3)).2
    (by decide) (by decide)

/-- The running scan yields one triple per deque. -/
theorem levelsScan_length (ds : List OrderDeque) (acc : F64) :
    (levelsScan ds acc).length = ds.length := by
  induction ds generalizing acc with
  | nil => rfl
  | cons d ds ih => simp [levelsScan, ih]

/-- Characterization of the running scan: the `k`-th triple carries the
`k`-th deque's price and size, and the fold of `price × size` over the
first `k+1` deques from the accumulator. -/
theorem levelsScan_get (ds : List OrderDeque) (acc : F64) :
    ∀ k t, (levelsScan ds acc).get? k = some t →
      ∃ d, ds.get? k = some d
        ∧ t = (F64.fin d.price, d.size,
            (ds.take (k + 1)).foldl (fun a d => a + F64.fin d.price * d.size) acc) := by
  induction ds generalizing acc with
  | nil => intro k t h; simp [levelsScan] at h
  | cons d ds ih =>
      intro k t h
      cases k with
      | zero =>
          unfold levelsScan at h
          injection h with h2
          subst h2
          exact ⟨d, rfl, rfl⟩
      | succ j =>
          unfold levelsScan at h
          obtain ⟨d2, hg, ht⟩ := ih (acc + F64.fin d.price * d.size) j t h
          exact ⟨d2, hg, ht⟩

/-- C8.  `levels(side, None)` yields one triple per deque walking from
best outward, and the k-th triple's third component is the running sum
over `i ≤ k` of `price_i × level_size_i` (the deque's aggregate order
size), accumulated in `f64` from 0. -/
theorem levels_liquidity_spec (b : OrderbookL3) (side : Side) :
    (b.levels side none).length = (b.sideDeques side).length
  ∧ ∀ k t, (b.levels side none).get? k = some t →
      ∃ d, (b.sideDeques side).get? k = some d
        ∧ t.1 = F64.fin d.price ∧ t.2.1 = d.size
        ∧ t.2.2 = liqPrefix (b.sideDeques side) (k + 1) := by
  cases side with
  | Buy =>
      refine ⟨levelsScan_length b.bids (F64.fin (Frac.ofInt 0)), ?_⟩
      intro k t h
      obtain ⟨d, hg, ht⟩ := levelsScan_get b.bids (F64.fin (Frac.ofInt 0)) k t h
      subst ht
      exact ⟨d, hg, rfl, rfl, rfl⟩
  | Sell =>
      refine ⟨levelsScan_length b.asks (F64.fin (Frac.ofInt 0)), ?_⟩
      intro k t h
      obtain ⟨d, hg, ht⟩ := levelsScan_get b.asks (F64.fin (Frac.ofInt 0)) k t h
      subst ht
      exact ⟨d, hg, rfl, rfl, rfl⟩

/-- Witness for C8 at the second ask level of the concrete three-ask book:
the cumulative notional is `10 × 6 + 11 × 3`. -/
theorem levels_liquidity_spec_witness :
    (∃ d, (threeAsksBook.sideDeques Side.Sell).get? 1 = some d
      ∧ c8t.1 = F64.fin d.price ∧ c8t.2.1 = d.size
      ∧ c8t.2.2 = liqPrefix (threeAsksBook.sideDeques Side.Sell) 2)
    ∧ F64.beq c8t.2.2 (F64.fin (Frac.ofInt 93)) = true :=
  ⟨(levels_liquidity_spec threeAsksBook Side.Sell).2 1 c8t (by decide), by decide⟩

end OrderbookL3

end BarterData
